import Mathlib

/-!
Verification development for the concurrent case-evaluation engine of
openmdao.lib/src/openmdao/lib/drivers/caseiterdriver.py
(class CaseIterDriverBase and its helpers).

The Python code is shallowly embedded as executable Lean functions:

* A Case is modelled by its scheduling-relevant data: an identifier, the
  number of input assignments and output requests (the concrete values set
  and harvested never influence control flow and are not tracked), the
  max_retries and retries counters and the failure message msg.
* The side effects of the external world (resource allocation results,
  model load results, exceptions raised while setting inputs, while
  executing the model and while getting outputs) are supplied by oracle
  functions in a configuration structure Cfg.  An oracle returning
  some s plays the role of an exception with text s; none means success.
* The driver's per-server dictionaries (_server_states, _server_cases,
  _exceptions, _queues, _servers, _server_info, _top_levels) are collected
  into one record Srv per server; the shared scheduler data (_stop, _iter,
  _todo, _rerun and the recorder sink) live in Shared.
* The case iterator self._iter is an Option (List Case): none models
  "self._iter is None", some l models a live iterator with remaining
  elements l (next() on some [] raises StopIteration).
* Worker threads communicate with the coordinator through per-worker
  request queues and a shared reply queue.  Requests are executed by a
  worker strictly in submission order and each produces exactly one reply,
  so a worker's pending work is a list Srv.reqs; delivering a reply to the
  coordinator is modelled by processing the head request (its worker-side
  effects become visible no later than its reply, and the coordinator only
  touches a worker's state when one of that worker's replies arrives).
  The interleaving of replies from different workers is an oracle.
-/

namespace CaseIter

/-- Worker states: the four values _EMPTY, _READY, _COMPLETE, _ERROR. -/
inductive WState where
  | empty
  | ready
  | complete
  | error
deriving DecidableEq, Repr

/-- The scheduling-relevant data of an openmdao.main Case.
The concrete input values and harvested output values never influence the
driver's control flow and are not tracked; nInputs and nOutputs record how
many entries case.inputs and case.outputs have (the loops over them can
raise).  max_retries = 0 models a falsy case.max_retries. -/
structure Case where
  cid : Nat
  nInputs : Nat
  nOutputs : Nat
  max_retries : Nat
  retries : Nat
  msg : Option String
deriving DecidableEq, Repr

/-- A request sitting in a worker's request queue (self._queues[name]):
either (self._remote_load_model, server) or
(self._remote_model_execute, server).  An execute request remembers the
identity and retry count of the case whose inputs were applied, so that
the execution-outcome oracle can be consulted when it is processed. -/
inductive Req where
  | load
  | exec (cid : Nat) (ret : Nat)
deriving DecidableEq, Repr

/-- All per-server data of CaseIterDriverBase, one record per server:
  isLocal       : this is the sequential in-process "server" None
  registered    : RAM.allocate returned a handle and the worker thread has
                  stored _servers[name], _server_info[name], _queues[name]
                  (for the local server: irrelevant, kept true)
  ackDelivered  : the startup reply of the service thread has been consumed
                  from the reply queue
  in_use        : self._in_use[name]
  tloaded       : _top_levels[name] has been assigned (a successful remote
                  load_model has been processed)
  state         : self._server_states[name]
  scase         : self._server_cases[name]
  exc           : self._exceptions[name]
  reqs          : pending entries of self._queues[name]
  eggCache      : self._server_info[name]['egg_file'] (none = None)
  nloads        : number of load requests this worker has processed, used
                  to index the load-result oracle. -/
structure Srv where
  isLocal : Bool
  registered : Bool
  ackDelivered : Bool
  in_use : Bool
  tloaded : Bool
  state : WState
  scase : Option Case
  exc : Option String
  reqs : List Req
  eggCache : Option Nat
  nloads : Nat
deriving DecidableEq, Repr

/-- Scheduler data shared between all servers:
_stop, _iter, _todo, _rerun, and the list of cases passed to
recorder.record so far (the recorder is modelled as always present). -/
structure Shared where
  stop : Bool
  iter : Option (List Case)
  todo : List Case
  rerun : List Case
  recorded : List Case
deriving DecidableEq, Repr

/-- Run configuration: driver traits and oracles for everything decided
outside the driver code.
  cases         : the sequence produced by get_case_iterator()
  maxServers    : RAM.max_servers(resources)
  drvMaxRetries : the driver trait self.max_retries
  reload_model  : the driver trait self.reload_model
  eggId         : identity of the egg file self._egg_file for this run
  allocOk w     : RAM.allocate succeeds for the w-th worker started
  loadOk w k    : the w-th worker's k-th load_model call returns a truthy
                  top level object
  setRes i r    : exception text raised while applying the inputs of case
                  i on its attempt with retries = r (none = all sets fine)
  execRes i r   : exception caught by _model_execute / the remote execute
                  for case i at retries = r (none = run succeeded)
  getRes i j    : exception text raised getting output j of case i
  waveSched w   : reply-queue arrivals processed in the pending-event loop
                  of _start after starting worker w (worker indices; the
                  list ending models the 0.1s timeout)
  mainSched t   : which worker's reply the t-th reply_q.get of the main
                  loop of _start returns (none / a worker with no pending
                  reply models a timeout)
  stopAt        : loop iteration of resume at which an external stop()
                  call becomes visible (sequential model). -/
structure Cfg where
  cases : List Case
  maxServers : Int
  drvMaxRetries : Nat
  reload_model : Bool
  eggId : Nat
  allocOk : Nat → Bool
  loadOk : Nat → Nat → Bool
  setRes : Nat → Nat → Option String
  execRes : Nat → Nat → Option String
  getRes : Nat → Nat → Option String
  waveSched : Nat → List Nat
  mainSched : Nat → Option Nat
  stopAt : Option Nat

/-- _remote_load_model (lines 497-511), run by the worker thread when a
load request is processed.  Returns the updated server record, whether the
egg payload was transferred (filexfer was called), and the boolean result.
The egg is transferred only when the cached identifier differs from the
scheduler's current one ("if egg_file is not self._egg_file"); the cache
is updated right after the transfer.  A truthy load_model result assigns
_top_levels[server]. -/
def remoteLoadTail (cfg : Cfg) (w : Nat) (sv : Srv) (xfer : Bool) :
    Srv × Bool × Bool :=
  let ok := cfg.loadOk w sv.nloads
  let sv := { sv with nloads := sv.nloads + 1 }
  if ok then ({ sv with tloaded := true }, xfer, true)
  else (sv, xfer, false)

def remoteLoadModel (cfg : Cfg) (w : Nat) (sv : Srv) : Srv × Bool × Bool :=
  if sv.eggCache = some cfg.eggId then remoteLoadTail cfg w sv false
  else remoteLoadTail cfg w { sv with eggCache := some cfg.eggId } true

/-- _load_model (lines 491-495).  For the local server (None) it does
nothing and returns True.  For a remote server it only enqueues a load
request on self._queues[server]; looking up an unregistered server raises
KeyError, modelled as none (this exception is not a _ServerError, so in
_server_ready it would propagate and crash the run). -/
def loadModel (sv : Srv) : Option Srv :=
  if sv.isLocal then some sv
  else if sv.registered then some { sv with reqs := sv.reqs ++ [Req.load] }
  else none

/-- The exception raised by applying the inputs of case c (the
"for name, index, value in case.inputs" loop of _run_case): on a remote
server whose _top_levels entry was never assigned, the first set raises
(KeyError); otherwise the oracle decides.  A case with no inputs performs
no set at all. -/
def setOutcome (cfg : Cfg) (sv : Srv) (c : Case) : Option String :=
  if c.nInputs = 0 then none
  else if !sv.isLocal && !sv.tloaded then some "KeyError: server top level"
  else cfg.setRes c.cid c.retries

/-- The exception produced by running the model for case c at retry count
r on server sv: _remote_model_execute runs _top_levels[server].run()
(KeyError when never loaded) and otherwise the oracle decides.  The local
path self.workflow.run() is decided by the oracle alone. -/
def execOutcome (cfg : Cfg) (sv : Srv) (c : Case) : Option String :=
  if !sv.isLocal && !sv.tloaded then some "KeyError: server top level"
  else cfg.execRes c.cid c.retries

/-- The harvest loop of the _COMPLETE branch of _server_ready (lines
368-375): for each requested output, _model_get either stores the value
into case.outputs (values not tracked) or raises, in which case case.msg
is overwritten with the "Exception getting ..." text; later outputs are
still attempted. -/
def harvest (cfg : Cfg) (sv : Srv) (c : Case) : Case :=
  (List.range c.nOutputs).foldl
    (fun acc j =>
      let res :=
        if !sv.isLocal && !sv.tloaded then some "KeyError: server top level"
        else cfg.getRes c.cid j
      match res with
      | none => acc
      | some e => { acc with msg := some e })
    c

/-- _run_case (lines 412-445).  Returns none when the code would raise an
exception other than _ServerError (enqueueing to an unregistered server's
queue); otherwise the updated shared state, server record, and the
in-use flag the surrounding _server_ready call will return (always true
on these paths).

Faithful details:
* on a first assignment (not a rerun) a falsy case.max_retries is
  replaced by the driver default and retries is reset to 0;
* case.msg is cleared before running;
* the events loop ("for event in self.get_events()") is modelled as
  empty: get_events is defined on the Driver base class outside this
  file's sources and no events are registered by this driver;
* an exception while setting inputs is re-raised as _ServerError: the
  server goes to _ERROR and, if retries < max_retries, retries is
  incremented and the case is appended to _rerun (the same mutated object
  stays in _server_cases); otherwise case.msg is set and the case is
  recorded immediately;
* otherwise _model_execute runs: locally it executes the workflow at once
  storing any exception in _exceptions[None]; remotely it resets
  _exceptions[server] and enqueues an execute request.  Either way the
  server state becomes _COMPLETE. -/
def applyCase (cfg : Cfg) (sh : Shared) (sv : Srv) (c : Case) :
    Option (Shared × Srv × Bool) :=
  let sv := { sv with scase := some c }
  match setOutcome cfg sv c with
  | some emsg =>
      let sv := { sv with state := WState.error }
      if c.retries < c.max_retries then
        let c := { c with retries := c.retries + 1 }
        some ({ sh with rerun := sh.rerun ++ [c] }, { sv with scase := some c }, true)
      else
        let c := { c with msg := some emsg }
        some ({ sh with recorded := sh.recorded ++ [c] }, { sv with scase := some c }, true)
  | none =>
      if sv.isLocal then
        let sv := { sv with exc := cfg.execRes c.cid c.retries }
        some (sh, { sv with state := WState.complete }, true)
      else if sv.registered then
        some (sh,
          { sv with
            exc := none,
            reqs := sv.reqs ++ [Req.exec c.cid c.retries],
            state := WState.complete },
          true)
      else none

/-- The case normalization at the top of _run_case (lines 414-419): on a
first assignment (not a rerun) a falsy case.max_retries is replaced by
the driver trait and retries is reset to 0; case.msg is always cleared
(line 419). -/
def runCase (cfg : Cfg) (sh : Shared) (sv : Srv) (c : Case) (rerun : Bool) :
    Option (Shared × Srv × Bool) :=
  let c :=
    if rerun then c
    else
      { c with
        max_retries := if c.max_retries = 0 then cfg.drvMaxRetries else c.max_retries,
        retries := 0 }
  applyCase cfg sh sv { c with msg := none }

/-- _server_ready (lines 310-410): drive one server's state machine one
step.  Returns none when the code would raise an exception that is not a
_ServerError (KeyError from _load_model on an unregistered server, or
reading attributes of a missing current case in the _COMPLETE branch);
otherwise the updated shared state, server record and the returned
in-use flag.

Branches, in source order:
* _EMPTY: with no work at all (todo and rerun empty and the iterator
  gone) the server is not in use; otherwise _load_model is called and the
  state becomes _READY (the except _ServerError → _ERROR handler is dead:
  _load_model never raises _ServerError);
* _READY: a stop request retires the server; otherwise work is chosen
  with strict priority todo, then rerun (with the rerun flag), then - if
  the iterator is gone - retirement, then - when stepping - retirement
  without grabbing a new case, and finally a fresh case is pulled from
  the iterator (StopIteration retires the server and sets _iter = None);
* _COMPLETE: the current case is taken out of _server_cases; with no
  stored execution exception its outputs are harvested, otherwise
  case.msg is set from the exception; the case is recorded; then the
  model is reloaded when case.msg is set, or - after a success - when
  reload_model is set; the state becomes _READY;
* _ERROR: the current case slot is cleared, _load_model is called and the
  state becomes _READY (its except _ServerError handler is likewise
  dead); the in-use flag stays true. -/
def serverReady (cfg : Cfg) (sh : Shared) (sv : Srv) (stepping : Bool) :
    Option (Shared × Srv × Bool) :=
  match sv.state with
  | WState.empty =>
      if sh.todo.isEmpty && sh.rerun.isEmpty && sh.iter.isNone then
        some (sh, sv, false)
      else
        match loadModel sv with
        | none => none
        | some sv => some (sh, { sv with state := WState.ready }, true)
  | WState.ready =>
      if sh.stop then some (sh, sv, false)
      else
        match sh.todo with
        | c :: rest => runCase cfg { sh with todo := rest } sv c false
        | [] =>
          match sh.rerun with
          | c :: rest => runCase cfg { sh with rerun := rest } sv c true
          | [] =>
            match sh.iter with
            | none => some (sh, sv, false)
            | some cs =>
              if stepping then some (sh, sv, false)
              else
                match cs with
                | [] => some ({ sh with iter := none }, sv, false)
                | c :: rest => runCase cfg { sh with iter := some rest } sv c false
  | WState.complete =>
      match sv.scase with
      | none => none
      | some c =>
        let sv := { sv with scase := none }
        let c :=
          match sv.exc with
          | none => harvest cfg sv c
          | some e => { c with msg := some e }
        let sh := { sh with recorded := sh.recorded ++ [c] }
        let doLoad := c.msg.isSome || cfg.reload_model
        match (if doLoad then loadModel sv else some sv) with
        | none => none
        | some sv => some (sh, { sv with state := WState.ready }, true)
  | WState.error =>
      let sv := { sv with scase := none }
      match loadModel sv with
      | none => none
      | some sv => some (sh, { sv with state := WState.ready }, true)

/-- The exception produced by processing an execute request for case cid
at retry count ret on worker sv (_remote_model_execute, lines 539-548):
_top_levels[server].run() raises KeyError when the top level was never
assigned; otherwise the oracle decides.  All exceptions are caught and
stored in _exceptions[server]. -/
def execOutcomeAt (cfg : Cfg) (sv : Srv) (cid ret : Nat) : Option String :=
  if !sv.tloaded then some "KeyError: server top level"
  else cfg.execRes cid ret

/-- The coordinator state of a concurrent run: the shared scheduler data
and the per-worker records, indexed by order of creation (the code names
them name_1, name_2, ...). -/
structure CState where
  sh : Shared
  srvs : List Srv
deriving DecidableEq, Repr

/-- _busy (lines 285-287): any(self._in_use.values()). -/
def busy (cs : CState) : Bool := cs.srvs.any (fun sv => sv.in_use)

/-- Consume the next reply of worker w from the shared reply queue and
apply its worker-side effects.  A worker first posts its startup reply
(lines 455 and 469); afterwards each processed request posts exactly one
reply (lines 474 and 481).  Requests execute strictly in submission
order.  Returns none when this worker has no reply to deliver. -/
def popReply (cfg : Cfg) (w : Nat) (sv : Srv) : Option Srv :=
  if !sv.ackDelivered then some { sv with ackDelivered := true }
  else
    match sv.reqs with
    | [] => none
    | Req.load :: rest =>
        some (remoteLoadModel cfg w { sv with reqs := rest }).1
    | Req.exec cid ret :: rest =>
        let sv := { sv with reqs := rest }
        some { sv with exc := execOutcomeAt cfg sv cid ret }

/-- Outcome of the coordinator handling one reply-queue arrival. -/
inductive DRes where
  | noReply            -- Queue.Empty timeout, nothing from this worker
  | crash              -- an exception escaped _server_ready
  | next (cs : CState)

/-- Reply handling in the pending-event loop of _start (lines 215-225):
a reply from a worker whose _servers entry is still None marks a failed
startup, self._in_use[name] = False; any other reply feeds
self._in_use[name] = self._server_ready(name). -/
def handleWave (cfg : Cfg) (cs : CState) (w : Nat) : DRes :=
  match cs.srvs[w]? with
  | none => DRes.noReply
  | some sv =>
    match popReply cfg w sv with
    | none => DRes.noReply
    | some sv =>
      if !sv.registered then
        DRes.next { cs with srvs := cs.srvs.set w { sv with in_use := false } }
      else
        match serverReady cfg cs.sh sv false with
        | none => DRes.crash
        | some (sh, sv, b) =>
            DRes.next { sh := sh, srvs := cs.srvs.set w { sv with in_use := b } }

/-- Reply handling in the main loop of _start (lines 251 and 267): every
reply, including a late startup reply, feeds
self._in_use[name] = self._server_ready(name) with no check of
self._servers[name]. -/
def handleMain (cfg : Cfg) (cs : CState) (w : Nat) : DRes :=
  match cs.srvs[w]? with
  | none => DRes.noReply
  | some sv =>
    match popReply cfg w sv with
    | none => DRes.noReply
    | some sv =>
      match serverReady cfg cs.sh sv false with
      | none => DRes.crash
      | some (sh, sv, b) =>
          DRes.next { sh := sh, srvs := cs.srvs.set w { sv with in_use := b } }

/-- The pending-event loop run after starting each worker on non-Windows
platforms (lines 213-225): while _busy(), pull replies from the reply
queue with a 0.1s timeout; the scheduled arrival list ending (or naming a
worker with nothing to deliver) models the Queue.Empty timeout, which
breaks the loop.  Returns none when a handled reply crashes. -/
def waveInner (cfg : Cfg) : List Nat → CState → Option CState
  | [], cs => some cs
  | w :: ws, cs =>
    if busy cs then
      match handleWave cfg cs w with
      | DRes.noReply => some cs
      | DRes.crash => none
      | DRes.next cs => waveInner cfg ws cs
    else some cs

/-- A freshly started worker record (lines 203-206 for the coordinator's
dictionaries, lines 451-469 for the service thread): _servers[name] =
None then, if allocation succeeds, the thread registers the server and
its request queue and sets server_info['egg_file'] = None. -/
def newSrv (cfg : Cfg) (w : Nat) : Srv :=
  { isLocal := false, registered := cfg.allocOk w, ackDelivered := false,
    in_use := true, tloaded := false, state := WState.empty, scase := none,
    exc := none, reqs := [], eggCache := none, nloads := 0 }

/-- The initial wave of _start (lines 184-225): while fewer than
max_servers workers have been started, stop on a stop request or a gone
iterator, pull the next case into _todo (StopIteration with an empty
_rerun kills the iterator and breaks; with a pending _rerun it is
swallowed and a worker is still started), start a worker thread and pump
pending replies.  Fuel is max_servers.toNat, one unit per worker
started. -/
def wave (cfg : Cfg) : Nat → CState → Option CState
  | 0, cs => some cs
  | fuel+1, cs =>
    if cs.sh.stop then some cs
    else
      match cs.sh.iter with
      | none => some cs
      | some [] =>
        if cs.sh.rerun.isEmpty then
          some { cs with sh := { cs.sh with iter := none } }
        else
          let w := cs.srvs.length
          let cs := { cs with srvs := cs.srvs ++ [newSrv cfg w] }
          match waveInner cfg (cfg.waveSched w) cs with
          | none => none
          | some cs => wave cfg fuel cs
      | some (c :: rest) =>
        let cs :=
          { cs with sh := { cs.sh with iter := some rest, todo := cs.sh.todo ++ [c] } }
        let w := cs.srvs.length
        let cs := { cs with srvs := cs.srvs ++ [newSrv cfg w] }
        match waveInner cfg (cfg.waveSched w) cs with
        | none => none
        | some cs => wave cfg fuel cs

/-- The outcome of a concurrent run. -/
inductive RunOut where
  | aborted            -- RuntimeError 'No servers supporting required resources'
  | hung               -- the coordinator blocks forever / loops on timeouts
  | crashed            -- an exception escaped _server_ready
  | done (cs : CState)
deriving DecidableEq, Repr

/-- The main coordination loop of _start (lines 242-267): while _busy(),
block on the reply queue and feed the reply's worker to _server_ready.
The code's idle timeout branch (lines 253-265) only logs and re-polls
without changing any state, and a get() with no timeout never returns
when no reply will arrive, so a schedule that names no deliverable reply
is modelled as hung. -/
def mainLoop (cfg : Cfg) : Nat → Nat → CState → RunOut
  | 0, _, _ => RunOut.hung
  | fuel+1, t, cs =>
    if busy cs then
      match cfg.mainSched t with
      | none => RunOut.hung
      | some w =>
        match handleMain cfg cs w with
        | DRes.noReply => RunOut.hung
        | DRes.crash => RunOut.crashed
        | DRes.next cs => mainLoop cfg fuel (t+1) cs
    else RunOut.done cs

/-- _start (lines 166-283), entered from resume() right after setup(), so
_iter is a fresh iterator and _todo and _rerun are empty.  A non-positive
RAM.max_servers(resources) raises RuntimeError before any worker or case
is touched (lines 175-179).  Then the initial wave runs, then the main
loop.  The shutdown section (lines 269-283) puts a None sentinel on every
registered request queue and waits up to 1s per worker for shutdown
acknowledgments; it only logs on timeout, cannot raise, and changes none
of the modelled state, so the returned state is the state at main-loop
exit (the worker-side sentinel handling is modelled in serviceLoop). -/
def initState (cfg : Cfg) : CState :=
  { sh := { stop := false, iter := some cfg.cases, todo := [], rerun := [],
            recorded := [] },
    srvs := [] }

def startRun (cfg : Cfg) (fuel : Nat) : RunOut :=
  if cfg.maxServers ≤ 0 then RunOut.aborted
  else
    match wave cfg cfg.maxServers.toNat (initState cfg) with
    | none => RunOut.crashed
    | some cs => mainLoop cfg fuel 0 cs

/-! ### The sequential path: step() and resume() with sequential=True -/

/-- The per-server record of the in-process server None: _load_model and
_model_execute short-circuit on it, no queue or registration exists. -/
def localSrv : Srv :=
  { isLocal := true, registered := true, ackDelivered := true,
    in_use := true, tloaded := false, state := WState.empty, scase := none,
    exc := none, reqs := [], eggCache := none, nloads := 0 }

/-- setup (lines 131-160) on a sequential driver: _cleanup clears the
queues and per-server dictionaries (the recorder is external, its records
persist), the egg-saving block is skipped, and _iter becomes a fresh
iterator over the case set. -/
def setupSeq (cfg : Cfg) (sh : Shared) : Shared :=
  { sh with iter := some cfg.cases, todo := [], rerun := [] }

/-- The loop "while self._server_ready(None, stepping=True): pass" of
step() (lines 123-124), with fuel.  Returns none when fuel runs out or a
_server_ready call crashes. -/
def readyLoop (cfg : Cfg) : Nat → Shared → Srv → Option (Shared × Srv)
  | 0, _, _ => none
  | fuel+1, sh, sv =>
    match serverReady cfg sh sv true with
    | none => none
    | some (sh, sv, b) => if b then readyLoop cfg fuel sh sv else some (sh, sv)

/-- The tail of step() after the iterator pull (lines 121-124): reset
_server_cases[None] and _server_states[None] and drive the state machine
until the server is no longer in use. -/
def stepLoop (cfg : Cfg) (fuel : Nat) (sh : Shared) (sv : Srv) :
    Option (Shared × Srv × Bool) :=
  let sv := { sv with scase := none, state := WState.empty }
  match readyLoop cfg fuel sh sv with
  | none => none
  | some (sh, sv) => some (sh, sv, false)

/-- step (lines 108-124): reset _stop; a gone iterator triggers a fresh
setup(); then one case is pulled into _todo - StopIteration with an empty
_rerun kills the iterator and re-raises (the returned Bool is true), with
a pending _rerun it is swallowed - and the state-machine loop runs.
Returns none when fuel runs out (or on the unreachable branch where setup
left no iterator). -/
def seqStep (cfg : Cfg) (fuel : Nat) (sh : Shared) (sv : Srv) :
    Option (Shared × Srv × Bool) :=
  let sh := { sh with stop := false }
  let p := if sh.iter.isNone then (setupSeq cfg sh, localSrv) else (sh, sv)
  let sh := p.1
  let sv := p.2
  match sh.iter with
  | none => none
  | some [] =>
    if sh.rerun.isEmpty then some ({ sh with iter := none }, sv, true)
    else stepLoop cfg fuel sh sv
  | some (c :: rest) =>
    stepLoop cfg fuel { sh with iter := some rest, todo := sh.todo ++ [c] } sv

/-- The sequential loop of resume (lines 90-98): while _iter is not None,
break on a stop request, then step(), breaking on StopIteration.  An
external stop() call becoming visible at iteration t is modelled by the
cfg.stopAt oracle (checked at the loop top, like self._stop).  Returns
none when fuel runs out. -/
def seqResumeLoop (cfg : Cfg) (inner : Nat) :
    Nat → Nat → Shared → Srv → Option (Shared × Srv)
  | 0, _, _, _ => none
  | fo+1, t, sh, sv =>
    match sh.iter with
    | none => some (sh, sv)
    | some _ =>
      let sh := if cfg.stopAt = some t then { sh with stop := true } else sh
      if sh.stop then some (sh, sv)
      else
        match seqStep cfg inner sh sv with
        | none => none
        | some (sh, sv, raised) =>
          if raised then some (sh, sv)
          else seqResumeLoop cfg inner fo (t+1) sh sv

/-- The outcome of a sequential resume() call. -/
inductive SeqOut where
  | alreadyDone (sh : Shared)  -- RuntimeError 'Run already complete', raised before the try
  | stopped (sh : Shared)      -- RunStopped raised after the final cleanup
  | completed (sh : Shared)
  | fuelOut
deriving DecidableEq, Repr

/-- _cleanup (lines 289-308) as it acts on the modelled shared state: the
queues are cleared; _iter and the external recorder are untouched. -/
def cleanupShared (sh : Shared) : Shared := { sh with todo := [], rerun := [] }

/-- resume (lines 77-106) on a sequential driver: _stop is reset, then a
gone iterator raises RuntimeError 'Run already complete' (before the try,
so without cleanup); otherwise the sequential loop runs, the finally
block cleans up, and a pending stop raises RunStopped instead of
returning normally. -/
def seqResume (cfg : Cfg) (outer inner : Nat) (sh : Shared) (sv : Srv) : SeqOut :=
  let sh := { sh with stop := false }
  if sh.iter.isNone then SeqOut.alreadyDone sh
  else
    match seqResumeLoop cfg inner outer 0 sh sv with
    | none => SeqOut.fuelOut
    | some (sh, _) =>
      let sh := cleanupShared sh
      if sh.stop then SeqOut.stopped sh else SeqOut.completed sh

/-- execute (lines 72-75) on a sequential driver: setup() then resume()
from a fresh state. -/
def seqExecute (cfg : Cfg) (outer inner : Nat) : SeqOut :=
  seqResume cfg outer inner
    { stop := false, iter := some cfg.cases, todo := [], rerun := [],
      recorded := [] }
    localSrv

/-! ### The worker service loop (_service_loop, lines 447-489) -/

/-- Oracles for one service thread:
  allocOk   : RAM.allocate returns a handle rather than (None, None)
  regRaises : an exception (e.g. the driver was cleaned up and
              self._server_lock is gone) escapes before the request loop
  reqRaises k : handling request k raises out of the per-request
              try/except (e.g. the reply put fails, or the NameError from
              replying with an unbound result after a first-request
              exception). -/
structure SLCfg where
  allocOk : Bool
  regRaises : Bool
  reqRaises : Nat → Bool

/-- Externally visible events of one service thread, in order. -/
inductive SLEv where
  | allocHandle   -- RAM.allocate returned a worker handle
  | allocNone     -- RAM.allocate returned (None, None)
  | ack           -- startup acknowledgment on the reply queue
  | reply         -- reply for one executed request
  | shutdownAck   -- acknowledgment of the None sentinel
  | release       -- RAM.release(server)
deriving DecidableEq, Repr

/-- The request loop of _service_loop (lines 471-481): requests arrive in
order; a None sentinel acknowledges shutdown and breaks; an exception
escaping a request's handling leaves the loop (to the outer except and
the finally); an exhausted list with no sentinel models a worker blocked
forever in request_q.get().  Returns the events of the loop body and
whether the loop was exited (as opposed to still blocking). -/
def serviceBody (cfg : SLCfg) : Nat → List (Option Unit) → List SLEv × Bool
  | _, [] => ([], false)
  | _, none :: _ => ([SLEv.shutdownAck], true)
  | k, some _ :: rest =>
    if cfg.reqRaises k then ([], true)
    else
      let r := serviceBody cfg (k+1) rest
      (SLEv.reply :: r.1, r.2)

/-- _service_loop (lines 447-489).  Allocation failure replies and
returns before the try/finally, so nothing is released (and no handle was
obtained).  With a handle, the try/finally guarantees RAM.release(server)
on every exit path: sentinel shutdown, an exception while registering,
or an exception escaping the request loop.  Only a worker blocked forever
in request_q.get() (second component false) has not released yet. -/
def serviceLoop (cfg : SLCfg) (reqs : List (Option Unit)) : List SLEv × Bool :=
  if !cfg.allocOk then ([SLEv.allocNone], true)
  else if cfg.regRaises then ([SLEv.allocHandle, SLEv.release], true)
  else
    let r := serviceBody cfg 0 reqs
    (SLEv.allocHandle :: SLEv.ack :: r.1 ++ (if r.2 then [SLEv.release] else []),
     r.2)

/-! ### Case accounting

Every case produced by the iterator is, at any instant, in exactly one of
these places: still inside the iterator, in _todo, in _rerun, held by a
server in state _COMPLETE (a case held by a server in state _ERROR is the
very object already appended to _rerun or already recorded), or recorded.
The following counters make this conservation law provable. -/

/-- Number of cases with identifier i in a list. -/
def caseCount (i : Nat) (l : List Case) : Nat :=
  l.countP (fun c => c.cid == i)

/-- Number of cases with identifier i still inside the iterator. -/
def iterCount (i : Nat) : Option (List Case) → Nat
  | none => 0
  | some l => caseCount i l

/-- Number of cases with identifier i owned by a server record: exactly
the current case of a server in state _COMPLETE. -/
def contrib (i : Nat) (sv : Srv) : Nat :=
  if sv.state = WState.complete then
    match sv.scase with
    | some c => if c.cid == i then 1 else 0
    | none => 0
  else 0

/-- Number of cases with identifier i accounted for in the shared
scheduler state. -/
def sharedCount (i : Nat) (sh : Shared) : Nat :=
  iterCount i sh.iter + caseCount i sh.todo + caseCount i sh.rerun
    + caseCount i sh.recorded

/-- Number of release events in a trace. -/
def releases (tr : List SLEv) : Nat := tr.count SLEv.release

/-- Number of successful allocations in a trace. -/
def allocHandles (tr : List SLEv) : Nat := tr.count SLEv.allocHandle

/-- The combined event trace of a pool of service threads. -/
def poolTrace (ws : List (SLCfg × List (Option Unit))) : List SLEv :=
  ws.foldr (fun w acc => (serviceLoop w.1 w.2).1 ++ acc) []

/-- All service loops of the pool have exited. -/
def poolExited (ws : List (SLCfg × List (Option Unit))) : Bool :=
  ws.all (fun w => (serviceLoop w.1 w.2).2)

/-! ### Basic lemmas about the state-machine steps -/

theorem foldl_msg_only {f : Case → Nat → Case}
    (hf : ∀ a j, (f a j).cid = a.cid ∧ (f a j).retries = a.retries ∧
      (f a j).max_retries = a.max_retries) :
    ∀ (l : List Nat) (a : Case), (List.foldl f a l).cid = a.cid ∧
      (List.foldl f a l).retries = a.retries ∧
      (List.foldl f a l).max_retries = a.max_retries := by
  intro l
  induction l with
  | nil => intro a; simp
  | cons j l ih =>
      intro a
      simp only [List.foldl_cons]
      rcases ih (f a j) with ⟨h1, h2, h3⟩
      rcases hf a j with ⟨g1, g2, g3⟩
      exact ⟨h1.trans g1, h2.trans g2, h3.trans g3⟩

/-- The harvest loop only touches case.msg (and the untracked output
values). -/
theorem harvest_preserve (cfg : Cfg) (sv : Srv) (c : Case) :
    (harvest cfg sv c).cid = c.cid ∧ (harvest cfg sv c).retries = c.retries ∧
      (harvest cfg sv c).max_retries = c.max_retries := by
  unfold harvest
  apply foldl_msg_only
  intro a j
  cases h : (if !sv.isLocal && !sv.tloaded then some "KeyError: server top level"
      else cfg.getRes c.cid j) with
  | none => simp
  | some e => simp

/-- Master lemma for applyCase: what every successful execution of the
body of _run_case guarantees.  The conservation equation assumes the
entering server is in state _READY (the only state from which _run_case
is called), so it owns no completed case. -/
theorem applyCase_spec (cfg : Cfg) (sh : Shared) (sv : Srv) (c : Case)
    (sh' : Shared) (sv' : Srv) (b : Bool)
    (h : applyCase cfg sh sv c = some (sh', sv', b)) :
    b = true ∧ sh'.iter = sh.iter ∧ sh'.stop = sh.stop ∧ sh'.todo = sh.todo ∧
      sv'.in_use = sv.in_use ∧ sv'.registered = sv.registered ∧
      sv'.isLocal = sv.isLocal ∧ sv'.state ≠ WState.empty ∧
      (sv.state = WState.ready →
        ∀ i, sharedCount i sh' + contrib i sv' =
          sharedCount i sh + (if c.cid == i then 1 else 0)) ∧
      (sh'.rerun = sh.rerun ∨ ∃ d, sh'.rerun = sh.rerun ++ [d]) := by
  unfold applyCase at h
  simp only at h
  split at h
  case h_1 emsg heq =>
    split at h
    · simp only [Option.some.injEq, Prod.mk.injEq] at h
      obtain ⟨rfl, rfl, rfl⟩ := h
      refine ⟨rfl, rfl, rfl, rfl, rfl, rfl, rfl, by simp, ?_, ?_⟩
      · intro hst i
        simp only [sharedCount, contrib, caseCount, List.countP_append,
          List.countP_cons, List.countP_nil, hst]
        simp
        omega
      · exact Or.inr ⟨_, rfl⟩
    · simp only [Option.some.injEq, Prod.mk.injEq] at h
      obtain ⟨rfl, rfl, rfl⟩ := h
      refine ⟨rfl, rfl, rfl, rfl, rfl, rfl, rfl, by simp, ?_, Or.inl rfl⟩
      intro hst i
      simp only [sharedCount, contrib, caseCount, List.countP_append,
        List.countP_cons, List.countP_nil, hst]
      simp
      omega
  case h_2 heq =>
    split at h
    · simp only [Option.some.injEq, Prod.mk.injEq] at h
      obtain ⟨rfl, rfl, rfl⟩ := h
      refine ⟨rfl, rfl, rfl, rfl, rfl, rfl, rfl, by simp, ?_, Or.inl rfl⟩
      intro hst i
      simp [sharedCount, contrib, caseCount, hst]
    · split at h
      · simp only [Option.some.injEq, Prod.mk.injEq] at h
        obtain ⟨rfl, rfl, rfl⟩ := h
        refine ⟨rfl, rfl, rfl, rfl, rfl, rfl, rfl, by simp, ?_, Or.inl rfl⟩
        intro hst i
        simp [sharedCount, contrib, caseCount, hst]
      · exact absurd h (by simp)

/-- The normalization at the top of _run_case preserves the case
identity, so runCase satisfies the same master lemma. -/
theorem runCase_spec (cfg : Cfg) (sh : Shared) (sv : Srv) (c : Case)
    (rr : Bool) (sh' : Shared) (sv' : Srv) (b : Bool)
    (h : runCase cfg sh sv c rr = some (sh', sv', b)) :
    b = true ∧ sh'.iter = sh.iter ∧ sh'.stop = sh.stop ∧ sh'.todo = sh.todo ∧
      sv'.in_use = sv.in_use ∧ sv'.registered = sv.registered ∧
      sv'.isLocal = sv.isLocal ∧ sv'.state ≠ WState.empty ∧
      (sv.state = WState.ready →
        ∀ i, sharedCount i sh' + contrib i sv' =
          sharedCount i sh + (if c.cid == i then 1 else 0)) ∧
      (sh'.rerun = sh.rerun ∨ ∃ d, sh'.rerun = sh.rerun ++ [d]) := by
  unfold runCase at h
  cases rr <;>
    simp only [if_pos, if_neg, Bool.false_eq_true, not_false_iff, ite_true,
      ite_false] at h <;>
    · have hs := applyCase_spec cfg sh sv _ sh' sv' b h
      simpa using hs

/-- Properties of _load_model: it never changes the scheduling-relevant
server fields, and on a remote server it only succeeds when the server is
registered. -/
theorem loadModel_spec (sv sv2 : Srv) (h : loadModel sv = some sv2) :
    sv2.state = sv.state ∧ sv2.scase = sv.scase ∧ sv2.in_use = sv.in_use ∧
      sv2.registered = sv.registered ∧ sv2.isLocal = sv.isLocal ∧
      sv2.exc = sv.exc ∧
      (sv.isLocal = false → sv.registered = true) := by
  unfold loadModel at h
  split at h
  · cases h
    simp_all
  · split at h
    · cases h
      simp_all
    · cases h

/-- The conditional reload in the _COMPLETE branch preserves the same
server fields as _load_model. -/
theorem loadModel_ite_spec (d : Bool) (sv sv2 : Srv)
    (h : (if d then loadModel sv else some sv) = some sv2) :
    sv2.state = sv.state ∧ sv2.scase = sv.scase ∧ sv2.in_use = sv.in_use ∧
      sv2.registered = sv.registered ∧ sv2.isLocal = sv.isLocal ∧
      sv2.exc = sv.exc := by
  split at h
  · obtain ⟨l1, l2, l3, l4, l5, l6, l7⟩ := loadModel_spec sv sv2 h
    exact ⟨l1, l2, l3, l4, l5, l6⟩
  · cases h
    exact ⟨rfl, rfl, rfl, rfl, rfl, rfl⟩

/-- Master lemma for _server_ready called with stepping=False (the
concurrent path): every conclusion needed by the run-level invariants.
  1 stop is never written;
  2-4 in_use, registered, isLocal of the server record are preserved;
  5 case conservation: the total number of accounted copies of every
    case identifier is preserved;
  6 a server retired (in_use result False) is returned unchanged, and
    either a stop was pending or there was and remains no queued work
    and no iterator;
  7 a server left in state _COMPLETE is still in use;
  8 without a pending stop, the server stays in use whenever _rerun is
    nonempty afterwards;
  9 _rerun changes only by a _run_case call from state _READY, which
    keeps the server in use;
  10 _todo never grows;
  11 a dead iterator stays dead;
  12 a remote server leaving state _EMPTY was registered. -/
theorem serverReady_spec (cfg : Cfg) (sh : Shared) (sv : Srv)
    (sh' : Shared) (sv' : Srv) (b : Bool)
    (h : serverReady cfg sh sv false = some (sh', sv', b)) :
    sh'.stop = sh.stop ∧
      sv'.in_use = sv.in_use ∧ sv'.registered = sv.registered ∧
      sv'.isLocal = sv.isLocal ∧
      (∀ i, sharedCount i sh' + contrib i sv' = sharedCount i sh + contrib i sv) ∧
      (b = false → sv' = sv ∧ sh'.recorded = sh.recorded ∧
        (sh.stop = true ∧ sh' = sh ∨
          (sh.todo = [] ∧ sh.rerun = [] ∧ sh'.todo = [] ∧ sh'.rerun = [] ∧
            sh'.iter = none))) ∧
      (sv'.state = WState.complete → b = true) ∧
      (sh.stop = false → sh'.rerun ≠ [] → b = true) ∧
      (sh'.rerun ≠ sh.rerun → sv.state = WState.ready ∧ b = true) ∧
      (sh.todo = [] → sh'.todo = []) ∧
      (sh.iter = none → sh'.iter = none) ∧
      (sv.isLocal = false → sv.state = WState.empty →
        sv'.state ≠ WState.empty → sv.registered = true) := by
  cases hst : sv.state
  case empty =>
    simp only [serverReady, hst] at h
    split at h
    case isTrue hcond =>
      simp only [Option.some.injEq, Prod.mk.injEq] at h
      obtain ⟨rfl, rfl, rfl⟩ := h
      simp only [Bool.and_eq_true, List.isEmpty_iff, Option.isNone_iff_eq_none,
        decide_eq_true_eq] at hcond
      obtain ⟨⟨ht, hr⟩, hi⟩ := hcond
      refine ⟨rfl, rfl, rfl, rfl, fun i => rfl, ?_, ?_, ?_, ?_, ?_, ?_, ?_⟩
      · intro _
        exact ⟨rfl, rfl, Or.inr ⟨ht, hr, ht, hr, hi⟩⟩
      · intro hc; exact absurd hc (by simp [hst])
      · intro _ hc; exact absurd rfl (hr ▸ hc)
      · intro hne; exact absurd rfl hne
      · intro hx; exact hx
      · intro hx; exact hx
      · intro _ _ hc; exact absurd hst hc
    case isFalse hcond =>
      cases hlm : loadModel sv with
      | none => rw [hlm] at h; cases h
      | some sv2 =>
        rw [hlm] at h
        simp only [Option.some.injEq, Prod.mk.injEq] at h
        obtain ⟨rfl, rfl, rfl⟩ := h
        obtain ⟨l1, l2, l3, l4, l5, l6, l7⟩ := loadModel_spec sv sv2 hlm
        refine ⟨rfl, l3, l4, l5, ?_, ?_, ?_, ?_, ?_, ?_, ?_, ?_⟩
        · intro i
          simp [contrib, hst, l1, l2]
        · intro hb; simp at hb
        · intro _; rfl
        · intro _ _; rfl
        · intro hne; exact absurd rfl hne
        · intro hx; exact hx
        · intro hx; exact hx
        · intro hl _ _; exact l7 hl
  case ready =>
    simp only [serverReady, hst] at h
    split at h
    case isTrue hstop =>
      simp only [Option.some.injEq, Prod.mk.injEq] at h
      obtain ⟨rfl, rfl, rfl⟩ := h
      refine ⟨rfl, rfl, rfl, rfl, fun i => rfl, ?_, ?_, ?_, ?_, ?_, ?_, ?_⟩
      · intro _; exact ⟨rfl, rfl, Or.inl ⟨hstop, rfl⟩⟩
      · intro hc; exact absurd hc (by simp [hst])
      · intro hns; exact absurd hns (by simp [hstop])
      · intro hne; exact absurd rfl hne
      · intro ht; exact ht
      · intro hi; exact hi
      · intro _ he; exact absurd he (by simp)
    case isFalse hstop =>
      cases htodo : sh.todo with
      | cons c rest =>
        rw [htodo] at h
        obtain ⟨hb, hit, hstp, htd, hu, hreg, hloc, hse, hcnt, hrr⟩ :=
          runCase_spec cfg { sh with todo := rest } sv c false sh' sv' b h
        refine ⟨hstp, hu, hreg, hloc, ?_, ?_, ?_, ?_, ?_, ?_, ?_, ?_⟩
        · intro i
          have hthis := hcnt hst i
          have hz : contrib i sv = 0 := by simp [contrib, hst]
          rw [hz, hthis]
          simp only [sharedCount, caseCount, iterCount, htodo,
            List.countP_cons]
          omega
        · intro hbf; simp [hb] at hbf
        · intro _; exact hb
        · intro _ _; exact hb
        · intro _; exact ⟨rfl, hb⟩
        · intro ht; exact absurd ht (by simp)
        · intro hi; rw [hit]; exact hi
        · intro _ he; exact absurd he (by simp)
      | nil =>
        rw [htodo] at h
        cases hrer : sh.rerun with
        | cons c rest =>
          rw [hrer] at h
          obtain ⟨hb, hit, hstp, htd, hu, hreg, hloc, hse, hcnt, hrr⟩ :=
            runCase_spec cfg { sh with todo := [], rerun := rest } sv c true sh' sv' b h
          refine ⟨hstp, hu, hreg, hloc, ?_, ?_, ?_, ?_, ?_, ?_, ?_, ?_⟩
          · intro i
            have hthis := hcnt hst i
            have hz : contrib i sv = 0 := by simp [contrib, hst]
            rw [hz, hthis]
            simp only [sharedCount, caseCount, iterCount, htodo, hrer,
              List.countP_cons, List.countP_nil]
            omega
          · intro hbf; simp [hb] at hbf
          · intro _; exact hb
          · intro _ _; exact hb
          · intro _; exact ⟨rfl, hb⟩
          · intro _; simpa using htd
          · intro hi; rw [hit]; exact hi
          · intro _ he; exact absurd he (by simp)
        | nil =>
          rw [hrer] at h
          cases hiter : sh.iter with
          | none =>
            rw [hiter] at h
            simp only [Bool.false_eq_true, ite_false, Option.some.injEq,
              Prod.mk.injEq] at h
            obtain ⟨rfl, rfl, rfl⟩ := h
            refine ⟨rfl, rfl, rfl, rfl, fun i => rfl, ?_, ?_, ?_, ?_, ?_, ?_, ?_⟩
            · intro _; exact ⟨rfl, rfl, Or.inr ⟨rfl, rfl, htodo, hrer, hiter⟩⟩
            · intro hc; exact absurd hc (by simp [hst])
            · intro _ hc; exact absurd hrer hc
            · intro hne; exact absurd hrer hne
            · intro _; exact htodo
            · intro _; exact hiter
            · intro _ he; exact absurd he (by simp)
          | some cs =>
            rw [hiter] at h
            simp only [Bool.false_eq_true, ite_false] at h
            cases cs with
            | nil =>
              simp only [Option.some.injEq, Prod.mk.injEq] at h
              obtain ⟨rfl, rfl, rfl⟩ := h
              refine ⟨rfl, rfl, rfl, rfl, ?_, ?_, ?_, ?_, ?_, ?_, ?_, ?_⟩
              · intro i
                simp [sharedCount, iterCount, hiter, htodo, hrer, caseCount]
              · intro _
                exact ⟨rfl, rfl, Or.inr ⟨rfl, rfl, rfl, rfl, rfl⟩⟩
              · intro hc; exact absurd hc (by simp [hst])
              · intro _ hc; exact absurd rfl hc
              · intro hne; exact absurd rfl hne
              · intro _; rfl
              · intro _; rfl
              · intro _ he; exact absurd he (by simp)
            | cons c rest =>
              obtain ⟨hb, hit, hstp, htd, hu, hreg, hloc, hse, hcnt, hrr⟩ :=
                runCase_spec cfg { sh with todo := [], rerun := [], iter := some rest }
                  sv c false sh' sv' b h
              refine ⟨hstp, hu, hreg, hloc, ?_, ?_, ?_, ?_, ?_, ?_, ?_, ?_⟩
              · intro i
                have hthis := hcnt hst i
                have hz : contrib i sv = 0 := by simp [contrib, hst]
                rw [hz, hthis]
                simp only [sharedCount, caseCount, iterCount, htodo, hrer, hiter,
                  List.countP_cons, List.countP_nil]
                omega
              · intro hbf; simp [hb] at hbf
              · intro _; exact hb
              · intro _ _; exact hb
              · intro _; exact ⟨rfl, hb⟩
              · intro _; simpa using htd
              · intro hi; exact absurd hi (by simp)
              · intro _ he; exact absurd he (by simp)
  case complete =>
    simp only [serverReady, hst] at h
    cases hsc : sv.scase with
    | none => rw [hsc] at h; cases h
    | some c =>
      rw [hsc] at h
      simp only at h
      cases hexc : sv.exc with
      | some e =>
        rw [show ({ sv with scase := none } : Srv).exc = sv.exc from rfl, hexc] at h
        simp only at h
        split at h
        case h_1 hload => cases h
        case h_2 sv3 hload =>
          simp only [Option.some.injEq, Prod.mk.injEq] at h
          obtain ⟨rfl, rfl, rfl⟩ := h
          obtain ⟨l1, l2, l3, l4, l5, l6⟩ := loadModel_ite_spec _ _ _ hload
          refine ⟨rfl, l3, l4, l5, ?_, ?_, ?_, ?_, ?_, ?_, ?_, ?_⟩
          · intro i
            simp only [sharedCount, caseCount, contrib, hst, hsc,
              List.countP_append, List.countP_cons, List.countP_nil]
            simp [beq_iff_eq]
            omega
          · intro hb; simp at hb
          · intro _; rfl
          · intro _ _; rfl
          · intro hne; exact absurd rfl hne
          · intro hx; exact hx
          · intro hx; exact hx
          · intro _ he; exact absurd he (by simp)
      | none =>
        rw [show ({ sv with scase := none } : Srv).exc = sv.exc from rfl, hexc] at h
        simp only at h
        split at h
        case h_1 hload => cases h
        case h_2 sv3 hload =>
          simp only [Option.some.injEq, Prod.mk.injEq] at h
          obtain ⟨rfl, rfl, rfl⟩ := h
          obtain ⟨l1, l2, l3, l4, l5, l6⟩ := loadModel_ite_spec _ _ _ hload
          refine ⟨rfl, l3, l4, l5, ?_, ?_, ?_, ?_, ?_, ?_, ?_, ?_⟩
          · intro i
            have hC := (harvest_preserve cfg
              { sv with state := WState.complete, scase := none, exc := none } c).1
            simp only [sharedCount, caseCount, contrib, hst, hsc,
              List.countP_append, List.countP_cons, List.countP_nil]
            simp [hC, beq_iff_eq]
            omega
          · intro hb; simp at hb
          · intro _; rfl
          · intro _ _; rfl
          · intro hne; exact absurd rfl hne
          · intro hx; exact hx
          · intro hx; exact hx
          · intro _ he; exact absurd he (by simp)
  case error =>
    simp only [serverReady, hst] at h
    cases hlm : loadModel { sv with state := WState.error, scase := none } with
    | none => rw [hlm] at h; cases h
    | some sv2 =>
      rw [hlm] at h
      simp only [Option.some.injEq, Prod.mk.injEq] at h
      obtain ⟨rfl, rfl, rfl⟩ := h
      obtain ⟨l1, l2, l3, l4, l5, l6, l7⟩ := loadModel_spec _ sv2 hlm
      refine ⟨rfl, l3, l4, l5, ?_, ?_, ?_, ?_, ?_, ?_, ?_, ?_⟩
      · intro i
        simp [contrib, hst, l1, l2]
      · intro hb; simp at hb
      · intro _; rfl
      · intro _ _; rfl
      · intro hne; exact absurd rfl hne
      · intro hx; exact hx
      · intro hx; exact hx
      · intro _ he; exact absurd he (by simp)

/-! ### Run-level invariants of the concurrent coordinator -/

theorem contrib_set_in_use (i : Nat) (sv : Srv) (b : Bool) :
    contrib i { sv with in_use := b } = contrib i sv := by
  simp [contrib]

/-- Total number of copies of case identifier i owned by servers. -/
def srvSum (i : Nat) (srvs : List Srv) : Nat := (srvs.map (contrib i)).sum

theorem sum_map_set {α : Type} (f : α → Nat) :
    ∀ (l : List α) (w : Nat) (x : α) (hw : w < l.length),
      ((l.set w x).map f).sum + f (l.get ⟨w, hw⟩) =
        (l.map f).sum + f x := by
  intro l
  induction l with
  | nil => intro w x hw; simp at hw
  | cons a t ih =>
      intro w x hw
      cases w with
      | zero => simp [List.set]; omega
      | succ n =>
          simp only [List.set, List.map_cons, List.sum_cons, List.get_cons_succ]
          have := ih n x (by simpa using hw)
          omega

/-- The worker-side effects applied when a reply is consumed never touch
the scheduling-relevant fields of the server record. -/
theorem popReply_spec (cfg : Cfg) (w : Nat) (sv sv1 : Srv)
    (h : popReply cfg w sv = some sv1) :
    sv1.registered = sv.registered ∧ sv1.in_use = sv.in_use ∧
      sv1.state = sv.state ∧ sv1.scase = sv.scase ∧ sv1.isLocal = sv.isLocal := by
  unfold popReply at h
  split at h
  · cases h; simp
  · split at h
    · cases h
    · cases h
      simp only [remoteLoadModel, remoteLoadTail]
      split_ifs <;> simp
    · cases h; simp

/-- The run-level invariant of the concurrent scheduler, preserved by
worker startup, case pulls and every reply delivery:
  conserve  : every case identifier is accounted for exactly as often as
              the iterator produced it (iterator + todo + rerun +
              in-flight + recorded);
  completeInUse : a server holding a completed, not yet recorded case is
              still in use;
  rerunOwner : while _rerun is nonempty some registered server is in use
              (so the run cannot silently end with pending retries);
  retiredDone : once any registered server has been retired, the iterator
              is exhausted and _todo is empty (a registered server only
              retires when there is nothing left to hand out);
  notLocal  : concurrent workers are never the in-process server None;
  regOfActive : a server that left state _EMPTY is registered;
  noStop    : no stop request is pending. -/
structure Inv (cfg : Cfg) (cs : CState) : Prop where
  conserve : ∀ i, sharedCount i cs.sh + srvSum i cs.srvs = caseCount i cfg.cases
  completeInUse : ∀ sv ∈ cs.srvs, sv.state = WState.complete → sv.in_use = true
  rerunOwner : cs.sh.rerun ≠ [] →
    ∃ j, ∃ hj : j < cs.srvs.length,
      (cs.srvs.get ⟨j, hj⟩).registered = true ∧ (cs.srvs.get ⟨j, hj⟩).in_use = true
  retiredDone : (∃ sv ∈ cs.srvs, sv.registered = true ∧ sv.in_use = false) →
    cs.sh.iter = none ∧ cs.sh.todo = []
  notLocal : ∀ sv ∈ cs.srvs, sv.isLocal = false
  regOfActive : ∀ sv ∈ cs.srvs, sv.state ≠ WState.empty → sv.registered = true
  noStop : cs.sh.stop = false

/-- Delivering one reply of worker w through _server_ready (the common
core of both reply handlers) preserves the run invariant. -/
theorem update_inv (cfg : Cfg) (cs : CState) (w : Nat) (sv sv1 sv2 : Srv)
    (sh2 : Shared) (b : Bool)
    (hInv : Inv cfg cs) (hw : cs.srvs[w]? = some sv)
    (hpop : popReply cfg w sv = some sv1)
    (hsr : serverReady cfg cs.sh sv1 false = some (sh2, sv2, b)) :
    Inv cfg ⟨sh2, cs.srvs.set w { sv2 with in_use := b }⟩ := by
  obtain ⟨hwlt, hget⟩ := List.getElem?_eq_some.mp hw
  obtain ⟨p1, p2, p3, p4, p5⟩ := popReply_spec cfg w sv sv1 hpop
  obtain ⟨s1, s2, s3, s4, s5, s6, s7, s8, s9, s10, s11, s12⟩ :=
    serverReady_spec cfg cs.sh sv1 sh2 sv2 b hsr
  have hsvmem : sv ∈ cs.srvs := by
    rw [← hget]; exact List.getElem_mem hwlt
  have hc1 : ∀ i, contrib i sv1 = contrib i sv := by
    intro i; simp [contrib, p3, p4]
  have hreg2 : sv2.registered = sv.registered := by rw [s3, p1]
  have hloc2 : sv2.isLocal = sv.isLocal := by rw [s4, p5]
  refine ⟨?_, ?_, ?_, ?_, ?_, ?_, ?_⟩
  · -- conserve
    intro i
    have hthis : contrib i (cs.srvs.get ⟨w, hwlt⟩) = contrib i sv := by
      rw [List.get_eq_getElem, hget]
    have hsum := sum_map_set (contrib i) cs.srvs w { sv2 with in_use := b } hwlt
    have hcy := contrib_set_in_use i sv2 b
    have hcons := hInv.conserve i
    have h5i := s5 i
    have hc1i := hc1 i
    simp only [srvSum] at hcons ⊢
    omega
  · -- completeInUse
    intro x hx hxc
    rcases List.mem_or_eq_of_mem_set hx with hmem | rfl
    · exact hInv.completeInUse x hmem hxc
    · have hb := s7 (by simpa using hxc)
      simpa using hb
  · -- rerunOwner
    intro hne
    have hbt : b = true := s8 hInv.noStop hne
    by_cases hrch : sh2.rerun = cs.sh.rerun
    · have hold := hInv.rerunOwner (by rw [hrch] at hne; exact hne)
      obtain ⟨j, hj, hjr, hju⟩ := hold
      by_cases hjw : j = w
      · subst hjw
        refine ⟨j, by simpa using hj, ?_, ?_⟩
        · rw [List.get_eq_getElem, List.getElem_set_self]
          have hsvr : sv.registered = true := by
            rw [List.get_eq_getElem, hget] at hjr; exact hjr
          simpa [hreg2] using hsvr
        · rw [List.get_eq_getElem, List.getElem_set_self]
          simpa using hbt
      · refine ⟨j, by simpa using hj, ?_, ?_⟩
        · rw [List.get_eq_getElem, List.getElem_set_ne (fun he => hjw he.symm)]
          rw [List.get_eq_getElem] at hjr; exact hjr
        · rw [List.get_eq_getElem, List.getElem_set_ne (fun he => hjw he.symm)]
          rw [List.get_eq_getElem] at hju; exact hju
    · obtain ⟨hs1r, _⟩ := s9 hrch
      refine ⟨w, by simpa using hwlt, ?_, ?_⟩
      · rw [List.get_eq_getElem, List.getElem_set_self]
        have hsvr : sv.registered = true := by
          apply hInv.regOfActive sv hsvmem
          rw [← p3, hs1r]; simp
        simpa [hreg2] using hsvr
      · rw [List.get_eq_getElem, List.getElem_set_self]
        simpa using hbt
  · -- retiredDone
    intro hex
    obtain ⟨x, hx, hxr, hxu⟩ := hex
    rcases List.mem_or_eq_of_mem_set hx with hmem | rfl
    · have hold := hInv.retiredDone ⟨x, hmem, hxr, hxu⟩
      exact ⟨s11 hold.1, s10 hold.2⟩
    · have hbf : b = false := by simpa using hxu
      obtain ⟨hsv, hrec, hcase⟩ := s6 hbf
      rcases hcase with ⟨hstop, _⟩ | ⟨ht, hr, ht2, hr2, hi2⟩
      · rw [hInv.noStop] at hstop; cases hstop
      · exact ⟨hi2, ht2⟩
  · -- notLocal
    intro x hx
    rcases List.mem_or_eq_of_mem_set hx with hmem | rfl
    · exact hInv.notLocal x hmem
    · have := hInv.notLocal sv hsvmem
      simpa [hloc2] using this
  · -- regOfActive
    intro x hx hxs
    rcases List.mem_or_eq_of_mem_set hx with hmem | rfl
    · exact hInv.regOfActive x hmem hxs
    · have hxs2 : sv2.state ≠ WState.empty := by simpa using hxs
      by_cases hse : sv.state = WState.empty
      · have hl1 : sv1.isLocal = false := by
          rw [p5]; exact hInv.notLocal sv hsvmem
        have := s12 hl1 (p3.trans hse) hxs2
        have hr1 : sv1.registered = true := this
        simp only []
        rw [s3, hr1]
      · have := hInv.regOfActive sv hsvmem hse
        simpa [hreg2] using this
  · -- noStop
    rw [s1]; exact hInv.noStop

/-- A reply from a worker whose startup failed (wave handling, lines
221-223) marks it not in use and preserves the invariant. -/
theorem updateFail_inv (cfg : Cfg) (cs : CState) (w : Nat) (sv sv1 : Srv)
    (hInv : Inv cfg cs) (hw : cs.srvs[w]? = some sv)
    (hpop : popReply cfg w sv = some sv1)
    (hreg : sv1.registered = false) :
    Inv cfg ⟨cs.sh, cs.srvs.set w { sv1 with in_use := false }⟩ := by
  obtain ⟨hwlt, hget⟩ := List.getElem?_eq_some.mp hw
  obtain ⟨p1, p2, p3, p4, p5⟩ := popReply_spec cfg w sv sv1 hpop
  have hsvmem : sv ∈ cs.srvs := by
    rw [← hget]; exact List.getElem_mem hwlt
  have hsvreg : sv.registered = false := by rw [← p1]; exact hreg
  have hsvempty : sv.state = WState.empty := by
    by_contra hne
    have := hInv.regOfActive sv hsvmem hne
    rw [this] at hsvreg; cases hsvreg
  refine ⟨?_, ?_, ?_, ?_, ?_, ?_, ?_⟩
  · intro i
    have hthis : contrib i (cs.srvs.get ⟨w, hwlt⟩) = contrib i sv := by
      rw [List.get_eq_getElem, hget]
    have hsum := sum_map_set (contrib i) cs.srvs w { sv1 with in_use := false } hwlt
    have hcy : contrib i { sv1 with in_use := false } = contrib i sv := by
      simp [contrib, p3, p4]
    have hcons := hInv.conserve i
    simp only [srvSum] at hcons ⊢
    omega
  · intro x hx hxc
    rcases List.mem_or_eq_of_mem_set hx with hmem | rfl
    · exact hInv.completeInUse x hmem hxc
    · have : sv.state = WState.complete := by rw [← p3]; simpa using hxc
      rw [hsvempty] at this; cases this
  · intro hne
    obtain ⟨j, hj, hjr, hju⟩ := hInv.rerunOwner hne
    have hjw : j ≠ w := by
      intro hjw
      subst hjw
      rw [List.get_eq_getElem, hget] at hjr
      rw [hjr] at hsvreg; cases hsvreg
    refine ⟨j, by simpa using hj, ?_, ?_⟩
    · rw [List.get_eq_getElem, List.getElem_set_ne (fun he => hjw he.symm)]
      rw [List.get_eq_getElem] at hjr; exact hjr
    · rw [List.get_eq_getElem, List.getElem_set_ne (fun he => hjw he.symm)]
      rw [List.get_eq_getElem] at hju; exact hju
  · intro hex
    obtain ⟨x, hx, hxr, hxu⟩ := hex
    rcases List.mem_or_eq_of_mem_set hx with hmem | rfl
    · exact hInv.retiredDone ⟨x, hmem, hxr, hxu⟩
    · have : sv1.registered = true := by simpa using hxr
      rw [hreg] at this; cases this
  · intro x hx
    rcases List.mem_or_eq_of_mem_set hx with hmem | rfl
    · exact hInv.notLocal x hmem
    · have := hInv.notLocal sv hsvmem
      simpa [p5] using this
  · intro x hx hxs
    rcases List.mem_or_eq_of_mem_set hx with hmem | rfl
    · exact hInv.regOfActive x hmem hxs
    · have : sv1.state ≠ WState.empty := by simpa using hxs
      rw [p3, hsvempty] at this
      exact absurd rfl this
  · exact hInv.noStop

/-- Reply handling in the wave preserves the invariant. -/
theorem handleWave_inv (cfg : Cfg) (cs cs2 : CState)
    (w : Nat) (hInv : Inv cfg cs)
    (h : handleWave cfg cs w = DRes.next cs2) : Inv cfg cs2 := by
  unfold handleWave at h
  cases hw : cs.srvs[w]? with
  | none => rw [hw] at h; cases h
  | some sv =>
    rw [hw] at h
    simp only at h
    cases hpop : popReply cfg w sv with
    | none => rw [hpop] at h; cases h
    | some sv1 =>
      rw [hpop] at h
      simp only at h
      split at h
      case isTrue hreg =>
        cases h
        exact updateFail_inv cfg cs w sv sv1 hInv hw hpop (by simpa using hreg)
      case isFalse hreg =>
        cases hsr : serverReady cfg cs.sh sv1 false with
        | none => rw [hsr] at h; cases h
        | some t =>
          obtain ⟨sh2, sv2, b⟩ := t
          rw [hsr] at h
          cases h
          exact update_inv cfg cs w sv sv1 sv2 sh2 b hInv hw hpop hsr

/-- Reply handling in the main loop preserves the invariant. -/
theorem handleMain_inv (cfg : Cfg) (cs cs2 : CState)
    (w : Nat) (hInv : Inv cfg cs)
    (h : handleMain cfg cs w = DRes.next cs2) : Inv cfg cs2 := by
  unfold handleMain at h
  cases hw : cs.srvs[w]? with
  | none => rw [hw] at h; cases h
  | some sv =>
    rw [hw] at h
    simp only at h
    cases hpop : popReply cfg w sv with
    | none => rw [hpop] at h; cases h
    | some sv1 =>
      rw [hpop] at h
      simp only at h
      cases hsr : serverReady cfg cs.sh sv1 false with
      | none => rw [hsr] at h; cases h
      | some t =>
        obtain ⟨sh2, sv2, b⟩ := t
        rw [hsr] at h
        cases h
        exact update_inv cfg cs w sv sv1 sv2 sh2 b hInv hw hpop hsr

/-- Starting a fresh worker preserves the invariant. -/
theorem newSrv_inv (cfg : Cfg) (sh : Shared) (srvs : List Srv) (w : Nat)
    (hInv : Inv cfg ⟨sh, srvs⟩) :
    Inv cfg ⟨sh, srvs ++ [newSrv cfg w]⟩ := by
  refine ⟨?_, ?_, ?_, ?_, ?_, ?_, ?_⟩
  · intro i
    have hcons := hInv.conserve i
    simp only [srvSum, List.map_append, List.sum_append] at hcons ⊢
    simp [newSrv, contrib]
    simpa using hcons
  · intro x hx hxc
    rcases List.mem_append.mp hx with hmem | hmem
    · exact hInv.completeInUse x hmem hxc
    · simp at hmem
      subst hmem
      simp [newSrv] at hxc
  · intro hne
    obtain ⟨j, hj, hjr, hju⟩ := hInv.rerunOwner hne
    refine ⟨j, ?_, ?_, ?_⟩
    · have hj2 : j < srvs.length := by simpa using hj
      simp only [List.length_append]
      omega
    · rw [List.get_eq_getElem, List.getElem_append_left hj]
      rw [List.get_eq_getElem] at hjr; exact hjr
    · rw [List.get_eq_getElem, List.getElem_append_left hj]
      rw [List.get_eq_getElem] at hju; exact hju
  · intro hex
    obtain ⟨x, hx, hxr, hxu⟩ := hex
    rcases List.mem_append.mp hx with hmem | hmem
    · exact hInv.retiredDone ⟨x, hmem, hxr, hxu⟩
    · simp at hmem
      subst hmem
      simp [newSrv] at hxu
  · intro x hx
    rcases List.mem_append.mp hx with hmem | hmem
    · exact hInv.notLocal x hmem
    · simp at hmem
      subst hmem
      simp [newSrv]
  · intro x hx hxs
    rcases List.mem_append.mp hx with hmem | hmem
    · exact hInv.regOfActive x hmem hxs
    · simp at hmem
      subst hmem
      simp [newSrv] at hxs
  · exact hInv.noStop

/-- Pulling the next case from the iterator into _todo preserves the
invariant. -/
theorem pull_inv (cfg : Cfg) (sh : Shared) (srvs : List Srv)
    (c : Case) (rest : List Case)
    (hInv : Inv cfg ⟨sh, srvs⟩) (hiter : sh.iter = some (c :: rest)) :
    Inv cfg ⟨{ sh with iter := some rest, todo := sh.todo ++ [c] }, srvs⟩ := by
  refine ⟨?_, hInv.completeInUse, ?_, ?_, hInv.notLocal, hInv.regOfActive, ?_⟩
  · intro i
    have hcons := hInv.conserve i
    simp only [sharedCount, iterCount, hiter, caseCount, List.countP_cons,
      List.countP_append, List.countP_nil] at hcons ⊢
    omega
  · intro hne
    exact hInv.rerunOwner hne
  · intro hex
    have := (hInv.retiredDone hex).1
    rw [hiter] at this; cases this
  · exact hInv.noStop

/-- Exhausting the iterator (StopIteration handling) preserves the
invariant. -/
theorem iterKill_inv (cfg : Cfg) (sh : Shared) (srvs : List Srv)
    (hInv : Inv cfg ⟨sh, srvs⟩) (hiter : sh.iter = some []) :
    Inv cfg ⟨{ sh with iter := none }, srvs⟩ := by
  refine ⟨?_, hInv.completeInUse, ?_, ?_, hInv.notLocal, hInv.regOfActive, ?_⟩
  · intro i
    have hcons := hInv.conserve i
    simp only [sharedCount, iterCount, hiter, caseCount, List.countP_nil]
      at hcons ⊢
    omega
  · intro hne
    exact hInv.rerunOwner hne
  · intro hex
    exact ⟨rfl, (hInv.retiredDone hex).2⟩
  · exact hInv.noStop

/-- The pending-event loop of the wave preserves the invariant. -/
theorem waveInner_inv (cfg : Cfg) : ∀ (evs : List Nat) (cs cs2 : CState),
    Inv cfg cs → waveInner cfg evs cs = some cs2 → Inv cfg cs2 := by
  intro evs
  induction evs with
  | nil =>
      intro cs cs2 hInv h
      cases h; exact hInv
  | cons w ws ih =>
      intro cs cs2 hInv h
      unfold waveInner at h
      split at h
      · cases hh : handleWave cfg cs w with
        | noReply => rw [hh] at h; cases h; exact hInv
        | crash => rw [hh] at h; cases h
        | next cs3 =>
            rw [hh] at h
            exact ih cs3 cs2 (handleWave_inv cfg cs cs3 w hInv hh) h
      · cases h; exact hInv

/-- The whole startup wave preserves the invariant. -/
theorem wave_inv (cfg : Cfg) : ∀ (fuel : Nat) (cs cs2 : CState),
    Inv cfg cs → wave cfg fuel cs = some cs2 → Inv cfg cs2 := by
  intro fuel
  induction fuel with
  | zero =>
      intro cs cs2 hInv h
      cases h; exact hInv
  | succ f ih =>
      intro cs cs2 hInv h
      unfold wave at h
      split at h
      · cases h; exact hInv
      · cases hit : cs.sh.iter with
        | none => rw [hit] at h; cases h; exact hInv
        | some cases0 =>
          rw [hit] at h
          cases cases0 with
          | nil =>
              simp only at h
              split at h
              case isTrue hre =>
                cases h
                exact iterKill_inv cfg cs.sh cs.srvs hInv hit
              case isFalse hre =>
                cases hwi : waveInner cfg (cfg.waveSched cs.srvs.length)
                    { cs with srvs := cs.srvs ++ [newSrv cfg cs.srvs.length] } with
                | none => rw [hwi] at h; cases h
                | some cs3 =>
                    rw [hwi] at h
                    have h1 : Inv cfg
                        { cs with srvs := cs.srvs ++ [newSrv cfg cs.srvs.length] } :=
                      newSrv_inv cfg cs.sh cs.srvs cs.srvs.length hInv
                    exact ih cs3 cs2 (waveInner_inv cfg _ _ cs3 h1 hwi) h
          | cons c rest =>
              simp only at h
              cases hwi : waveInner cfg (cfg.waveSched cs.srvs.length)
                  { sh := { cs.sh with iter := some rest, todo := cs.sh.todo ++ [c] },
                    srvs := cs.srvs ++ [newSrv cfg cs.srvs.length] } with
              | none => rw [hwi] at h; cases h
              | some cs3 =>
                  rw [hwi] at h
                  have h1 : Inv cfg
                      ⟨{ cs.sh with iter := some rest, todo := cs.sh.todo ++ [c] },
                        cs.srvs⟩ :=
                    pull_inv cfg cs.sh cs.srvs c rest hInv hit
                  have h2 : Inv cfg
                      ⟨{ cs.sh with iter := some rest, todo := cs.sh.todo ++ [c] },
                        cs.srvs ++ [newSrv cfg cs.srvs.length]⟩ :=
                    newSrv_inv cfg _ cs.srvs cs.srvs.length h1
                  exact ih cs3 cs2 (waveInner_inv cfg _ _ cs3 h2 hwi) h

/-- The main loop of _start preserves the invariant, and a normally
completed loop ends with no server in use. -/
theorem mainLoop_inv (cfg : Cfg) : ∀ (fuel t : Nat) (cs cs2 : CState),
    Inv cfg cs → mainLoop cfg fuel t cs = RunOut.done cs2 →
    Inv cfg cs2 ∧ busy cs2 = false := by
  intro fuel
  induction fuel with
  | zero => intro t cs cs2 hInv h; cases h
  | succ f ih =>
      intro t cs cs2 hInv h
      unfold mainLoop at h
      split at h
      case isTrue hbusy =>
        cases hms : cfg.mainSched t with
        | none => rw [hms] at h; cases h
        | some w =>
            rw [hms] at h
            simp only at h
            cases hh : handleMain cfg cs w with
            | noReply => rw [hh] at h; cases h
            | crash => rw [hh] at h; cases h
            | next cs3 =>
                rw [hh] at h
                exact ih (t+1) cs3 cs2 (handleMain_inv cfg cs cs3 w hInv hh) h
      case isFalse hbusy =>
        cases h
        exact ⟨hInv, by simpa using hbusy⟩

/-- The invariant holds in the state _start builds right after setup. -/
theorem init_inv (cfg : Cfg) : Inv cfg (initState cfg) := by
  refine ⟨?_, ?_, ?_, ?_, ?_, ?_, rfl⟩
  · intro i; simp [initState, sharedCount, iterCount, caseCount, srvSum]
  · intro x hx; simp [initState] at hx
  · intro hne; simp [initState] at hne
  · intro hex; obtain ⟨x, hx, _⟩ := hex; simp [initState] at hx
  · intro x hx; simp [initState] at hx
  · intro x hx; simp [initState] at hx

/-- A concurrent run that returns normally satisfies the invariant and
has no server in use. -/
theorem startRun_final (cfg : Cfg) (fuel : Nat) (cs2 : CState)
    (h : startRun cfg fuel = RunOut.done cs2) :
    Inv cfg cs2 ∧ busy cs2 = false := by
  unfold startRun at h
  split at h
  · cases h
  · cases hwv : wave cfg cfg.maxServers.toNat (initState cfg) with
    | none => rw [hwv] at h; cases h
    | some cs1 =>
        rw [hwv] at h
        exact mainLoop_inv cfg fuel 0 cs1 cs2
          (wave_inv cfg _ _ cs1 (init_inv cfg) hwv) h

/-- Exactly-once recording for a concurrent run that completes normally
with at least one successfully started (registered) worker: every case
identifier is recorded exactly as often as the iterator produced it. -/
theorem startRun_exactly_once (cfg : Cfg) (fuel : Nat) (cs2 : CState)
    (h : startRun cfg fuel = RunOut.done cs2)
    (hW : ∃ sv ∈ cs2.srvs, sv.registered = true) :
    ∀ i, caseCount i cs2.sh.recorded = caseCount i cfg.cases := by
  obtain ⟨hInv, hbusy⟩ := startRun_final cfg fuel cs2 h
  have hall : ∀ sv ∈ cs2.srvs, sv.in_use = false := by
    intro sv hsv
    by_contra hu
    have hb : busy cs2 = true := by
      simp only [busy, List.any_eq_true]
      exact ⟨sv, hsv, by simpa using hu⟩
    rw [hb] at hbusy; cases hbusy
  obtain ⟨sv0, hsv0, hreg0⟩ := hW
  have hretired := hInv.retiredDone ⟨sv0, hsv0, hreg0, hall sv0 hsv0⟩
  have hrerun : cs2.sh.rerun = [] := by
    by_contra hne
    obtain ⟨j, hj, hjr, hju⟩ := hInv.rerunOwner hne
    have hmem : cs2.srvs.get ⟨j, hj⟩ ∈ cs2.srvs := List.get_mem ..
    have := hall _ hmem
    rw [this] at hju; cases hju
  intro i
  have hcons := hInv.conserve i
  have hz : srvSum i cs2.srvs = 0 := by
    simp only [srvSum]
    apply List.sum_eq_zero
    intro x hx
    simp only [List.mem_map] at hx
    obtain ⟨sv, hsv, rfl⟩ := hx
    by_contra hnz
    have hcomp : sv.state = WState.complete := by
      by_contra hnc
      simp [contrib, hnc] at hnz
    have hiu := hInv.completeInUse sv hsv hcomp
    rw [hall sv hsv] at hiu; cases hiu
  rw [hz] at hcons
  simp only [sharedCount, hretired.1, hretired.2, hrerun, iterCount,
    caseCount, List.countP_nil] at hcons
  simpa [caseCount] using hcons

/-! ### The sequential path: conservation along step() and resume() -/

/-- Master lemma for _server_ready called with stepping=True (the
sequential path): stop is never written, cases are conserved, and a
server that is no longer in use is unchanged and leaves the queues in a
drained state (unless a stop was pending). -/
theorem serverReadyT_spec (cfg : Cfg) (sh : Shared) (sv : Srv)
    (sh' : Shared) (sv' : Srv) (b : Bool)
    (h : serverReady cfg sh sv true = some (sh', sv', b)) :
    sh'.stop = sh.stop ∧
      (∀ i, sharedCount i sh' + contrib i sv' = sharedCount i sh + contrib i sv) ∧
      (b = false → sv' = sv ∧ sh'.recorded = sh.recorded ∧
        (∀ i, contrib i sv' = 0) ∧
        (sh.stop = true ∧ sh' = sh ∨
          (sh'.todo = [] ∧ sh'.rerun = [] ∧
            (sh'.iter = sh.iter ∨ sh'.iter = none)))) := by
  cases hst : sv.state
  case empty =>
    simp only [serverReady, hst] at h
    split at h
    case isTrue hcond =>
      simp only [Option.some.injEq, Prod.mk.injEq] at h
      obtain ⟨rfl, rfl, rfl⟩ := h
      simp only [Bool.and_eq_true, List.isEmpty_iff, Option.isNone_iff_eq_none,
        decide_eq_true_eq] at hcond
      obtain ⟨⟨ht, hr⟩, hi⟩ := hcond
      refine ⟨rfl, fun i => rfl, fun _ => ⟨rfl, rfl, ?_, Or.inr ⟨ht, hr, Or.inl rfl⟩⟩⟩
      intro i; simp [contrib, hst]
    case isFalse hcond =>
      cases hlm : loadModel sv with
      | none => rw [hlm] at h; cases h
      | some sv2 =>
        rw [hlm] at h
        simp only [Option.some.injEq, Prod.mk.injEq] at h
        obtain ⟨rfl, rfl, rfl⟩ := h
        obtain ⟨l1, l2, l3, l4, l5, l6, l7⟩ := loadModel_spec sv sv2 hlm
        refine ⟨rfl, ?_, ?_⟩
        · intro i
          simp [contrib, hst, l1, l2]
        · intro hb; simp at hb
  case ready =>
    simp only [serverReady, hst] at h
    split at h
    case isTrue hstop =>
      simp only [Option.some.injEq, Prod.mk.injEq] at h
      obtain ⟨rfl, rfl, rfl⟩ := h
      refine ⟨rfl, fun i => rfl, fun _ => ⟨rfl, rfl, ?_, Or.inl ⟨hstop, rfl⟩⟩⟩
      intro i; simp [contrib, hst]
    case isFalse hstop =>
      cases htodo : sh.todo with
      | cons c rest =>
        rw [htodo] at h
        obtain ⟨hb, hit, hstp, htd, hu, hreg, hloc, hse, hcnt, hrr⟩ :=
          runCase_spec cfg { sh with todo := rest } sv c false sh' sv' b h
        refine ⟨hstp, ?_, ?_⟩
        · intro i
          have hthis := hcnt hst i
          have hz : contrib i sv = 0 := by simp [contrib, hst]
          rw [hz, hthis]
          simp only [sharedCount, caseCount, iterCount, htodo,
            List.countP_cons]
          omega
        · intro hbf; simp [hb] at hbf
      | nil =>
        rw [htodo] at h
        cases hrer : sh.rerun with
        | cons c rest =>
          rw [hrer] at h
          obtain ⟨hb, hit, hstp, htd, hu, hreg, hloc, hse, hcnt, hrr⟩ :=
            runCase_spec cfg { sh with todo := [], rerun := rest } sv c true sh' sv' b h
          refine ⟨hstp, ?_, ?_⟩
          · intro i
            have hthis := hcnt hst i
            have hz : contrib i sv = 0 := by simp [contrib, hst]
            rw [hz, hthis]
            simp only [sharedCount, caseCount, iterCount, htodo, hrer,
              List.countP_cons, List.countP_nil]
            omega
          · intro hbf; simp [hb] at hbf
        | nil =>
          rw [hrer] at h
          cases hiter : sh.iter with
          | none =>
            rw [hiter] at h
            simp only [Option.some.injEq, Prod.mk.injEq] at h
            obtain ⟨rfl, rfl, rfl⟩ := h
            refine ⟨rfl, fun i => rfl,
              fun _ => ⟨rfl, rfl, ?_, Or.inr ⟨htodo, hrer, Or.inl hiter⟩⟩⟩
            intro i; simp [contrib, hst]
          | some cs =>
            rw [hiter] at h
            simp only [Option.some.injEq, Prod.mk.injEq, if_true] at h
            obtain ⟨rfl, rfl, rfl⟩ := h
            refine ⟨rfl, fun i => rfl,
              fun _ => ⟨rfl, rfl, ?_, Or.inr ⟨htodo, hrer, Or.inl hiter⟩⟩⟩
            intro i; simp [contrib, hst]
  case complete =>
    simp only [serverReady, hst] at h
    cases hsc : sv.scase with
    | none => rw [hsc] at h; cases h
    | some c =>
      rw [hsc] at h
      simp only at h
      cases hexc : sv.exc with
      | some e =>
        rw [show ({ sv with scase := none } : Srv).exc = sv.exc from rfl, hexc] at h
        simp only at h
        split at h
        case h_1 hload => cases h
        case h_2 sv3 hload =>
          simp only [Option.some.injEq, Prod.mk.injEq] at h
          obtain ⟨rfl, rfl, rfl⟩ := h
          obtain ⟨l1, l2, l3, l4, l5, l6⟩ := loadModel_ite_spec _ _ _ hload
          refine ⟨rfl, ?_, ?_⟩
          · intro i
            simp only [sharedCount, caseCount, contrib, hst, hsc,
              List.countP_append, List.countP_cons, List.countP_nil]
            simp [beq_iff_eq]
            omega
          · intro hb; simp at hb
      | none =>
        rw [show ({ sv with scase := none } : Srv).exc = sv.exc from rfl, hexc] at h
        simp only at h
        split at h
        case h_1 hload => cases h
        case h_2 sv3 hload =>
          simp only [Option.some.injEq, Prod.mk.injEq] at h
          obtain ⟨rfl, rfl, rfl⟩ := h
          obtain ⟨l1, l2, l3, l4, l5, l6⟩ := loadModel_ite_spec _ _ _ hload
          refine ⟨rfl, ?_, ?_⟩
          · intro i
            have hC := (harvest_preserve cfg
              { sv with state := WState.complete, scase := none, exc := none } c).1
            simp only [sharedCount, caseCount, contrib, hst, hsc,
              List.countP_append, List.countP_cons, List.countP_nil]
            simp [hC, beq_iff_eq]
            omega
          · intro hb; simp at hb
  case error =>
    simp only [serverReady, hst] at h
    cases hlm : loadModel { sv with state := WState.error, scase := none } with
    | none => rw [hlm] at h; cases h
    | some sv2 =>
      rw [hlm] at h
      simp only [Option.some.injEq, Prod.mk.injEq] at h
      obtain ⟨rfl, rfl, rfl⟩ := h
      obtain ⟨l1, l2, l3, l4, l5, l6, l7⟩ := loadModel_spec _ sv2 hlm
      refine ⟨rfl, ?_, ?_⟩
      · intro i
        simp [contrib, hst, l1, l2]
      · intro hb; simp at hb

/-- The state-machine loop of step() conserves cases and drains the
queues. -/
theorem readyLoop_spec (cfg : Cfg) : ∀ (fuel : Nat) (sh : Shared) (sv : Srv)
    (sh' : Shared) (sv' : Srv), sh.stop = false →
    readyLoop cfg fuel sh sv = some (sh', sv') →
    (∀ i, sharedCount i sh' + contrib i sv' = sharedCount i sh + contrib i sv) ∧
      sh'.stop = false ∧ sh'.todo = [] ∧ sh'.rerun = [] ∧
      (∀ i, contrib i sv' = 0) := by
  intro fuel
  induction fuel with
  | zero => intro sh sv sh' sv' hstop h; cases h
  | succ f ih =>
      intro sh sv sh' sv' hstop h
      unfold readyLoop at h
      cases hsr : serverReady cfg sh sv true with
      | none => rw [hsr] at h; cases h
      | some t =>
          obtain ⟨sh2, sv2, b⟩ := t
          rw [hsr] at h
          obtain ⟨s1, s2, s3⟩ := serverReadyT_spec cfg sh sv sh2 sv2 b hsr
          cases b with
          | true =>
              simp only [if_true] at h
              have hstop2 : sh2.stop = false := by rw [s1, hstop]
              obtain ⟨c1, c2, c3, c4, c5⟩ := ih sh2 sv2 sh' sv' hstop2 h
              refine ⟨?_, c2, c3, c4, c5⟩
              intro i
              have h1 := s2 i
              have h2 := c1 i
              omega
          | false =>
              simp only [Bool.false_eq_true, if_false, Option.some.injEq,
                Prod.mk.injEq] at h
              obtain ⟨rfl, rfl⟩ := h
              obtain ⟨hsv, hrec, hcz, hdis⟩ := s3 rfl
              rcases hdis with ⟨hst, _⟩ | ⟨ht, hr, _⟩
              · rw [hstop] at hst; cases hst
              · exact ⟨s2, by rw [s1, hstop], ht, hr, hcz⟩

/-- The tail of step() after the pull conserves cases and drains the
queues; it never raises StopIteration. -/
theorem stepLoop_spec (cfg : Cfg) (fuel : Nat) (sh : Shared) (sv : Srv)
    (sh' : Shared) (sv' : Srv) (r : Bool)
    (hstop : sh.stop = false)
    (h : stepLoop cfg fuel sh sv = some (sh', sv', r)) :
    r = false ∧ (∀ i, sharedCount i sh' + contrib i sv' = sharedCount i sh) ∧
      sh'.stop = false ∧ sh'.todo = [] ∧ sh'.rerun = [] ∧
      (∀ i, contrib i sv' = 0) := by
  unfold stepLoop at h
  simp only at h
  cases hrl : readyLoop cfg fuel sh { sv with scase := none, state := WState.empty } with
  | none => rw [hrl] at h; cases h
  | some t =>
      obtain ⟨sha, sva⟩ := t
      rw [hrl] at h
      simp only [Option.some.injEq, Prod.mk.injEq] at h
      obtain ⟨rfl, rfl, rfl⟩ := h
      obtain ⟨c1, c2, c3, c4, c5⟩ := readyLoop_spec cfg fuel sh _ sha sva hstop hrl
      refine ⟨rfl, ?_, c2, c3, c4, c5⟩
      intro i
      have h1 := c1 i
      have h2 : contrib i { sv with scase := none, state := WState.empty } = 0 := by
        simp [contrib]
      omega

/-- step() called with a live iterator and no held case: cases are
conserved; a raised StopIteration leaves the queues untouched with the
iterator killed; a normal return leaves the queues drained. -/
theorem seqStep_spec (cfg : Cfg) (fuel : Nat) (sh : Shared) (sv : Srv)
    (sh' : Shared) (sv' : Srv) (raised : Bool)
    (hiter : sh.iter ≠ none) (hcz : ∀ i, contrib i sv = 0)
    (h : seqStep cfg fuel sh sv = some (sh', sv', raised)) :
    (∀ i, sharedCount i sh' + contrib i sv' = sharedCount i sh) ∧
      sh'.stop = false ∧
      (raised = true → sh'.iter = none ∧ sh'.todo = sh.todo ∧
        sh'.rerun = sh.rerun ∧ sv' = sv ∧ sh'.recorded = sh.recorded) ∧
      (raised = false → sh'.todo = [] ∧ sh'.rerun = [] ∧
        ∀ i, contrib i sv' = 0) := by
  unfold seqStep at h
  simp only at h
  cases hit : sh.iter with
  | none => exact absurd hit hiter
  | some cases0 =>
      rw [hit] at h
      simp only [Option.isNone_some, Bool.false_eq_true, if_false] at h
      cases cases0 with
      | nil =>
          simp only at h
          cases hrer : sh.rerun with
          | nil =>
              rw [hrer] at h
              simp only [List.isEmpty_nil, if_true, Option.some.injEq,
                Prod.mk.injEq] at h
              obtain ⟨rfl, rfl, rfl⟩ := h
              refine ⟨?_, rfl, ?_, ?_⟩
              · intro i
                have h2 := hcz i
                simp only [sharedCount, iterCount, hit, hrer, caseCount,
                  List.countP_nil]
                omega
              · intro _
                exact ⟨rfl, rfl, rfl, rfl, rfl⟩
              · intro hc; cases hc
          | cons c rest =>
              rw [hrer] at h
              simp only [List.isEmpty_cons, if_false, Bool.false_eq_true] at h
              obtain ⟨r0, c1, c2, c3, c4, c5⟩ :=
                stepLoop_spec cfg fuel
                  { sh with stop := false, iter := some [], rerun := c :: rest }
                  sv sh' sv' raised rfl h
              subst r0
              refine ⟨?_, c2, ?_, fun _ => ⟨c3, c4, c5⟩⟩
              · intro i
                have h1 := c1 i
                simp only [sharedCount, caseCount, iterCount, hit, hrer]
                  at h1 ⊢
                omega
              · intro hc; cases hc
      | cons c rest =>
          simp only at h
          obtain ⟨r0, c1, c2, c3, c4, c5⟩ :=
            stepLoop_spec cfg fuel
              { sh with stop := false, iter := some rest, todo := sh.todo ++ [c] }
              sv sh' sv' raised rfl h
          subst r0
          refine ⟨?_, c2, ?_, fun _ => ⟨c3, c4, c5⟩⟩
          · intro i
            have h1 := c1 i
            simp only [sharedCount, caseCount, iterCount, hit, List.countP_cons,
              List.countP_append, List.countP_nil] at h1 ⊢
            omega
          · intro hc; cases hc

/-- The sequential loop of resume(): starting from drained queues, cases
are conserved, the queues stay drained, and a non-stopped exit means the
iterator was exhausted. -/
theorem seqResumeLoop_spec (cfg : Cfg) (inner : Nat) :
    ∀ (fo t : Nat) (sh : Shared) (sv : Srv) (sh' : Shared) (sv' : Srv),
    sh.stop = false → sh.todo = [] → sh.rerun = [] → (∀ i, contrib i sv = 0) →
    seqResumeLoop cfg inner fo t sh sv = some (sh', sv') →
    (∀ i, sharedCount i sh' = sharedCount i sh) ∧
      sh'.todo = [] ∧ sh'.rerun = [] ∧
      (sh'.stop = false → sh'.iter = none) := by
  intro fo
  induction fo with
  | zero => intro t sh sv sh' sv' hstop ht hr hc h; cases h
  | succ f ih =>
      intro t sh sv sh' sv' hstop ht hr hc h
      unfold seqResumeLoop at h
      cases hit : sh.iter with
      | none =>
          rw [hit] at h
          simp only [Option.some.injEq, Prod.mk.injEq] at h
          obtain ⟨rfl, rfl⟩ := h
          exact ⟨fun i => rfl, ht, hr, fun _ => hit⟩
      | some l =>
          rw [hit] at h
          simp only at h
          split at h
          case isTrue hsa =>
              simp only [if_true] at h
              simp only [Option.some.injEq, Prod.mk.injEq] at h
              obtain ⟨rfl, rfl⟩ := h
              refine ⟨fun i => by simp [sharedCount, hit], ht, hr, ?_⟩
              intro hs; simp at hs
          case isFalse hsa =>
              rw [hstop] at h
              simp only [Bool.false_eq_true, if_false] at h
              cases hst : seqStep cfg inner sh sv with
              | none => rw [hst] at h; cases h
              | some t2 =>
                  obtain ⟨sh2, sv2, raised⟩ := t2
                  rw [hst] at h
                  obtain ⟨c1, c2, c3, c4⟩ :=
                    seqStep_spec cfg inner sh sv sh2 sv2 raised
                      (by rw [hit]; simp) hc hst
                  cases raised with
                  | true =>
                      simp only [if_true] at h
                      simp only [Option.some.injEq, Prod.mk.injEq] at h
                      obtain ⟨rfl, rfl⟩ := h
                      obtain ⟨d1, d2, d3, d4, d5⟩ := c3 rfl
                      refine ⟨?_, d2.trans ht, d3.trans hr, fun _ => d1⟩
                      intro i
                      have h1 := c1 i
                      have h2 := hc i
                      have h3 : contrib i sv2 = 0 := by rw [d4]; exact hc i
                      omega
                  | false =>
                      simp only [Bool.false_eq_true, if_false] at h
                      obtain ⟨d1, d2, d3⟩ := c4 rfl
                      obtain ⟨e1, e2, e3, e4⟩ :=
                        ih (t+1) sh2 sv2 sh' sv' c2 d1 d2 d3 h
                      refine ⟨?_, e2, e3, e4⟩
                      intro i
                      have h1 := c1 i
                      have h2 := hc i
                      have h3 := e1 i
                      have h4 := d3 i
                      omega

/-- A sequential execute() that completes normally records every case
produced by the iterator exactly once. -/
theorem seqExecute_exact (cfg : Cfg) (outer inner : Nat) (sh2 : Shared)
    (h : seqExecute cfg outer inner = SeqOut.completed sh2) :
    ∀ i, caseCount i sh2.recorded = caseCount i cfg.cases := by
  unfold seqExecute seqResume at h
  simp only [Option.isNone_some, Bool.false_eq_true, if_false] at h
  cases hrl : seqResumeLoop cfg inner outer 0
      { stop := false, iter := some cfg.cases, todo := [], rerun := [],
        recorded := [] } localSrv with
  | none => rw [hrl] at h; cases h
  | some t =>
      obtain ⟨shf, svf⟩ := t
      rw [hrl] at h
      simp only at h
      obtain ⟨c1, c2, c3, c4⟩ :=
        seqResumeLoop_spec cfg inner outer 0 _ localSrv shf svf rfl rfl rfl
          (fun i => by simp [contrib, localSrv]) hrl
      split at h
      case isTrue hs => cases h
      case isFalse hs =>
          simp only [SeqOut.completed.injEq] at h
          subst h
          have hsf : shf.stop = false := by
            simpa [cleanupShared] using hs
          have hif : shf.iter = none := c4 hsf
          intro i
          have h1 := c1 i
          simp only [sharedCount, iterCount, hif, caseCount, c2, c3,
            List.countP_nil] at h1
          simpa [cleanupShared, caseCount] using h1

/-- A sequential execute() interrupted by stop(): the run reports the
stopped condition and every case pulled from the iterator so far has
been recorded (the queues are drained before the loop breaks, so cases
remaining in the iterator are the only unrecorded ones). -/
theorem seqExecute_stopped_exact (cfg : Cfg) (outer inner : Nat) (sh2 : Shared)
    (h : seqExecute cfg outer inner = SeqOut.stopped sh2) :
    (∀ i, iterCount i sh2.iter + caseCount i sh2.recorded =
      caseCount i cfg.cases) ∧ sh2.todo = [] ∧ sh2.rerun = [] := by
  unfold seqExecute seqResume at h
  simp only [Option.isNone_some, Bool.false_eq_true, if_false] at h
  cases hrl : seqResumeLoop cfg inner outer 0
      { stop := false, iter := some cfg.cases, todo := [], rerun := [],
        recorded := [] } localSrv with
  | none => rw [hrl] at h; cases h
  | some t =>
      obtain ⟨shf, svf⟩ := t
      rw [hrl] at h
      simp only at h
      obtain ⟨c1, c2, c3, c4⟩ :=
        seqResumeLoop_spec cfg inner outer 0 _ localSrv shf svf rfl rfl rfl
          (fun i => by simp [contrib, localSrv]) hrl
      split at h
      case isFalse hs => cases h
      case isTrue hs =>
          simp only [SeqOut.stopped.injEq] at h
          subst h
          refine ⟨?_, rfl, rfl⟩
          intro i
          have h1 := c1 i
          simp only [sharedCount, iterCount, caseCount, c2, c3,
            List.countP_nil] at h1
          simpa [cleanupShared, iterCount, caseCount] using h1

/-! ### Service-loop resource accounting -/

/-- The request loop body performs no allocation and no release. -/
theorem serviceBody_events (cfg : SLCfg) : ∀ (k : Nat) (reqs : List (Option Unit)),
    releases (serviceBody cfg k reqs).1 = 0 ∧
      allocHandles (serviceBody cfg k reqs).1 = 0 := by
  intro k reqs
  induction reqs generalizing k with
  | nil => simp [serviceBody, releases, allocHandles]
  | cons r rest ih =>
      cases r with
      | none => simp [serviceBody, releases, allocHandles]
      | some u =>
          simp only [serviceBody]
          split
          · simp [releases, allocHandles]
          · obtain ⟨h1, h2⟩ := ih (k+1)
            simp [releases, allocHandles] at h1 h2 ⊢
            exact ⟨h1, h2⟩

/-- An exited service loop released exactly as many handles as it
allocated (one when allocation succeeded, zero otherwise). -/
theorem serviceLoop_balance (cfg : SLCfg) (reqs : List (Option Unit))
    (hex : (serviceLoop cfg reqs).2 = true) :
    releases (serviceLoop cfg reqs).1 = allocHandles (serviceLoop cfg reqs).1 := by
  cases hao : cfg.allocOk with
  | false => simp [serviceLoop, hao, releases, allocHandles]
  | true =>
      cases hrr : cfg.regRaises with
      | true => simp [serviceLoop, hao, hrr, releases, allocHandles]
      | false =>
          obtain ⟨h1, h2⟩ := serviceBody_events cfg 0 reqs
          simp only [serviceLoop, hao, hrr, Bool.not_true, Bool.false_eq_true,
            if_false] at hex ⊢
          simp only [releases, allocHandles] at h1 h2 ⊢
          rw [hex]
          simp [List.count_append, List.count_cons, h1, h2]

/-- A pool of exited service loops is balanced. -/
theorem poolTrace_balance : ∀ (ws : List (SLCfg × List (Option Unit))),
    poolExited ws = true →
    releases (poolTrace ws) = allocHandles (poolTrace ws) := by
  intro ws
  induction ws with
  | nil => intro _; simp [poolTrace, releases, allocHandles]
  | cons wk rest ih =>
      intro hall
      simp only [poolExited, List.all_cons, Bool.and_eq_true] at hall
      obtain ⟨h1, h2⟩ := hall
      simp only [poolTrace, List.foldr_cons]
      simp only [releases, allocHandles, List.count_append] at ih ⊢
      have hb := serviceLoop_balance wk.1 wk.2 h1
      simp only [releases, allocHandles] at hb
      have ih2 := ih h2
      simp only [poolTrace] at ih2
      omega

/-! ### Concrete configurations used by witnesses and counterexamples -/

/-- A case with one input and one output. -/
def caseA (i : Nat) (mr : Nat) : Case :=
  { cid := i, nInputs := 1, nOutputs := 1, max_retries := mr, retries := 0,
    msg := none }

/-- A benign configuration: one server slot, everything succeeds. -/
def baseCfg (cs : List Case) : Cfg :=
  { cases := cs, maxServers := 1, drvMaxRetries := 1, reload_model := true,
    eggId := 7, allocOk := fun _ => true, loadOk := fun _ _ => true,
    setRes := fun _ _ => none, execRes := fun _ _ => none,
    getRes := fun _ _ => none, waveSched := fun _ => [],
    mainSched := fun _ => some 0, stopAt := none }

/-- A shared state with an exhausted iterator (a completed run). -/
def doneSh : Shared :=
  { stop := false, iter := none, todo := [], rerun := [], recorded := [] }

/-! ### Claims -/

/-- C7: for every load-model request, the egg payload is transferred
only when the worker's cached bundle identifier differs from the
scheduler's current one; the cache is updated to the current identifier,
so a second load on the same worker within the same run never transfers
the payload again. -/
theorem claim_C7 (cfg : Cfg) (w : Nat) (sv : Srv) :
    ((remoteLoadModel cfg w sv).2.1 = true ↔ sv.eggCache ≠ some cfg.eggId) ∧
      ((remoteLoadModel cfg w sv).1).eggCache = some cfg.eggId ∧
      (remoteLoadModel cfg w ((remoteLoadModel cfg w sv).1)).2.1 = false := by
  refine ⟨?_, ?_, ?_⟩ <;>
    · simp only [remoteLoadModel, remoteLoadTail]
      split_ifs <;> simp_all

/-- C9: on a first assignment (not a rerun), a case whose max_retries
field equals 0 has it silently replaced by the driver-level default
(the code tests falsiness, "if not case.max_retries"), so an explicit
per-case limit of 0 cannot be preserved. -/
theorem claim_C9 (cfg : Cfg) (sh : Shared) (sv : Srv) (c : Case)
    (h : c.max_retries = 0) :
    runCase cfg sh sv c false =
      applyCase cfg sh sv
        { c with max_retries := cfg.drvMaxRetries, retries := 0, msg := none } := by
  unfold runCase
  simp [h]

theorem claim_C9_witness :
    (caseA 5 0).max_retries = 0 ∧
      runCase (baseCfg []) doneSh localSrv (caseA 5 0) false =
        applyCase (baseCfg []) doneSh localSrv
          { caseA 5 0 with
            max_retries := (baseCfg []).drvMaxRetries,
            retries := 0, msg := none } :=
  ⟨rfl, claim_C9 (baseCfg []) doneSh localSrv (caseA 5 0) rfl⟩

/-- C10: resume() with an exhausted iterator raises RuntimeError 'Run
already complete' before the try block (so without evaluating any case or
cleaning up), whereas step() in the same situation performs a fresh
setup() and proceeds to evaluate the first case of the new iterator. -/
theorem claim_C10 :
    (∀ (cfg : Cfg) (outer inner : Nat) (sh : Shared) (sv : Srv),
      sh.iter = none →
      seqResume cfg outer inner sh sv = SeqOut.alreadyDone { sh with stop := false }) ∧
    (∀ (cfg : Cfg) (fuel : Nat) (sh : Shared) (sv : Srv) (c : Case)
      (rest : List Case), sh.iter = none → cfg.cases = c :: rest →
      seqStep cfg fuel sh sv =
        stepLoop cfg fuel
          { stop := false, iter := some rest, todo := [c], rerun := [],
            recorded := sh.recorded } localSrv) := by
  constructor
  · intro cfg outer inner sh sv h
    unfold seqResume
    simp [h]
  · intro cfg fuel sh sv c rest h hcc
    unfold seqStep setupSeq
    simp [h, hcc]

theorem claim_C10_witness :
    seqResume (baseCfg [caseA 0 0]) 5 5 doneSh localSrv =
        SeqOut.alreadyDone { doneSh with stop := false } ∧
      seqStep (baseCfg [caseA 0 0]) 9 doneSh localSrv =
        stepLoop (baseCfg [caseA 0 0]) 9
          { stop := false, iter := some [], todo := [caseA 0 0], rerun := [],
            recorded := doneSh.recorded } localSrv ∧
      (seqStep (baseCfg [caseA 0 0]) 9 doneSh localSrv).map
          (fun t => t.1.recorded.length) = some 1 :=
  ⟨claim_C10.1 (baseCfg [caseA 0 0]) 5 5 doneSh localSrv rfl,
   claim_C10.2 (baseCfg [caseA 0 0]) 9 doneSh localSrv (caseA 0 0) [] rfl rfl,
   by decide⟩

/-- C8: a Ready server with no stop pending is given work by strict
priority: first the head of _todo, then the head of _rerun (with the
rerun flag, so retries are not reset), then a fresh case pulled from the
iterator; with nothing available and the iterator exhausted (or raising
StopIteration) the server is retired. -/
theorem claim_C8 (cfg : Cfg) (sh : Shared) (sv : Srv)
    (hready : sv.state = WState.ready) (hstop : sh.stop = false) :
    (∀ c rest, sh.todo = c :: rest →
      serverReady cfg sh sv false = runCase cfg { sh with todo := rest } sv c false) ∧
    (∀ c rest, sh.todo = [] → sh.rerun = c :: rest →
      serverReady cfg sh sv false = runCase cfg { sh with rerun := rest } sv c true) ∧
    (∀ c rest, sh.todo = [] → sh.rerun = [] → sh.iter = some (c :: rest) →
      serverReady cfg sh sv false =
        runCase cfg { sh with iter := some rest } sv c false) ∧
    (sh.todo = [] → sh.rerun = [] → sh.iter = none →
      serverReady cfg sh sv false = some (sh, sv, false)) ∧
    (sh.todo = [] → sh.rerun = [] → sh.iter = some [] →
      serverReady cfg sh sv false = some ({ sh with iter := none }, sv, false)) := by
  refine ⟨?_, ?_, ?_, ?_, ?_⟩
  · intro c rest ht
    simp [serverReady, hready, hstop, ht]
  · intro c rest ht hr
    simp [serverReady, hready, hstop, ht, hr]
  · intro c rest ht hr hi
    simp [serverReady, hready, hstop, ht, hr, hi]
  · intro ht hr hi
    simp [serverReady, hready, hstop, ht, hr, hi]
  · intro ht hr hi
    simp [serverReady, hready, hstop, ht, hr, hi]

theorem claim_C8_witness :
    0 = 0 ∧
      serverReady (baseCfg []) { doneSh with todo := [caseA 3 1] }
          { localSrv with state := WState.ready } false =
        runCase (baseCfg []) { doneSh with todo := ([] : List Case) }
          { localSrv with state := WState.ready } (caseA 3 1) false ∧
      serverReady (baseCfg []) doneSh { localSrv with state := WState.ready }
          false =
        some (doneSh, { localSrv with state := WState.ready }, false) := by
  refine ⟨rfl, ?_, ?_⟩
  · exact (claim_C8 (baseCfg []) { doneSh with todo := [caseA 3 1] }
      { localSrv with state := WState.ready } rfl rfl).1 (caseA 3 1) [] rfl
  · exact (claim_C8 (baseCfg []) doneSh
      { localSrv with state := WState.ready } rfl rfl).2.2.2.1 rfl rfl rfl

/-- C5: after a stop request, a Ready server is retired instead of being
given a new case (nothing is assigned, no state changes); a sequential
run interrupted by stop() reports the stopped condition (RunStopped)
rather than successful completion, halts before pulling another case, and
has recorded exactly the cases pulled so far (the queues are drained, so
in-flight work finished). -/
theorem claim_C5 :
    (∀ (cfg : Cfg) (sh : Shared) (sv : Srv) (st : Bool),
      sh.stop = true → sv.state = WState.ready →
      serverReady cfg sh sv st = some (sh, sv, false)) ∧
    (∀ (cfg : Cfg) (outer inner : Nat) (sh2 : Shared),
      seqExecute cfg outer inner = SeqOut.stopped sh2 →
      (∀ i, iterCount i sh2.iter + caseCount i sh2.recorded =
        caseCount i cfg.cases) ∧ sh2.todo = [] ∧ sh2.rerun = []) := by
  constructor
  · intro cfg sh sv st hstop hready
    simp [serverReady, hready, hstop]
  · intro cfg outer inner sh2 h
    exact seqExecute_stopped_exact cfg outer inner sh2 h

/-- Three cases, the stop flag raised after the first loop iteration. -/
def c5cfg : Cfg :=
  { baseCfg [caseA 0 0, caseA 1 0, caseA 2 0] with stopAt := some 1 }

/-- The shared state in which the stopped run of c5cfg ends. -/
def c5sh : Shared :=
  match seqExecute c5cfg 9 9 with
  | SeqOut.stopped s => s
  | _ => doneSh

theorem claim_C5_witness :
    serverReady (baseCfg []) { doneSh with stop := true }
        { localSrv with state := WState.ready } false =
      some ({ doneSh with stop := true },
        { localSrv with state := WState.ready }, false) ∧
      iterCount 0 c5sh.iter + caseCount 0 c5sh.recorded =
        caseCount 0 c5cfg.cases ∧
      c5sh.todo = [] ∧ c5sh.rerun = [] := by
  have h2 := claim_C5.2 c5cfg 9 9 c5sh rfl
  exact ⟨claim_C5.1 (baseCfg []) { doneSh with stop := true }
    { localSrv with state := WState.ready } false rfl rfl, h2.1 0, h2.2⟩

/-- C3: a service thread that fails to allocate a server exits having
allocated and released nothing; one that does allocate releases its
server exactly once, on exit, via the finally block — whether it exits
through shutdown, a registration failure, or a request exception — so
over a whole pool that has shut down, releases balance allocations. -/
theorem claim_C3 :
    (∀ (cfg : SLCfg) (reqs : List (Option Unit)), cfg.allocOk = false →
      allocHandles (serviceLoop cfg reqs).1 = 0 ∧
        releases (serviceLoop cfg reqs).1 = 0) ∧
    (∀ (cfg : SLCfg) (reqs : List (Option Unit)), cfg.allocOk = true →
      (serviceLoop cfg reqs).2 = true →
      allocHandles (serviceLoop cfg reqs).1 = 1 ∧
        releases (serviceLoop cfg reqs).1 = 1) ∧
    (∀ ws : List (SLCfg × List (Option Unit)), poolExited ws = true →
      releases (poolTrace ws) = allocHandles (poolTrace ws)) := by
  refine ⟨?_, ?_, poolTrace_balance⟩
  · intro cfg reqs h
    simp [serviceLoop, h, allocHandles, releases]
  · intro cfg reqs hao hex
    cases hrr : cfg.regRaises with
    | true => simp [serviceLoop, hao, hrr, allocHandles, releases]
    | false =>
        obtain ⟨h1, h2⟩ := serviceBody_events cfg 0 reqs
        simp only [serviceLoop, hao, hrr, Bool.not_true, Bool.false_eq_true,
          if_false] at hex ⊢
        rw [hex]
        simp only [releases, allocHandles, List.count_cons, List.count_append,
          List.count_singleton] at h1 h2 ⊢
        constructor <;> simp_all

/-- A service-loop environment whose allocation fails. -/
def slFail : SLCfg :=
  { allocOk := false, regRaises := false, reqRaises := fun _ => false }

/-- A service-loop environment where everything succeeds. -/
def slOk : SLCfg :=
  { allocOk := true, regRaises := false, reqRaises := fun _ => false }

theorem claim_C3_witness :
    (allocHandles (serviceLoop slFail [some (), none]).1 = 0 ∧
        releases (serviceLoop slFail [some (), none]).1 = 0) ∧
      (allocHandles (serviceLoop slOk [some (), none]).1 = 1 ∧
        releases (serviceLoop slOk [some (), none]).1 = 1) ∧
      releases (poolTrace [(slOk, [some (), none])]) =
        allocHandles (poolTrace [(slOk, [some (), none])]) :=
  ⟨claim_C3.1 slFail [some (), none] rfl,
   claim_C3.2.1 slOk [some (), none] rfl (by decide),
   claim_C3.2.2 [(slOk, [some (), none])] (by decide)⟩

/-- One case, one worker slot, but allocation fails; the startup reply of
the failed worker is processed during the wave. -/
def c1x : Cfg :=
  { baseCfg [caseA 0 0] with
    allocOk := fun _ => false,
    waveSched := fun _ => [0] }

/-- The final coordinator state of the zero-worker run of c1x. -/
def c1xFinal : CState :=
  match startRun c1x 9 with
  | RunOut.done cs => cs
  | _ => initState c1x

/-- C1 counterexample: a concurrent run in which the single worker fails
to start completes normally (RunOut.done), yet the case pulled from the
iterator during startup sits unrecorded in the todo queue forever: it was
produced by the iterator and never reaches the recorder. -/
theorem claim_C1_counterexample :
    startRun c1x 9 = RunOut.done c1xFinal ∧
      caseCount 0 c1x.cases = 1 ∧
      c1xFinal.sh.recorded = [] ∧
      c1xFinal.sh.todo.length = 1 := by
  decide

/-- C1 (amended): exactly-once recording holds for every sequential run
that completes, and for every concurrent run that completes with at least
one successfully started (registered) worker; a concurrent run where no
worker starts drops the startup-earmarked cases silently (see the
counterexample). -/
theorem claim_C1 :
    (∀ (cfg : Cfg) (outer inner : Nat) (sh2 : Shared),
      seqExecute cfg outer inner = SeqOut.completed sh2 →
      ∀ i, caseCount i sh2.recorded = caseCount i cfg.cases) ∧
    (∀ (cfg : Cfg) (fuel : Nat) (cs2 : CState),
      startRun cfg fuel = RunOut.done cs2 →
      (∃ sv ∈ cs2.srvs, sv.registered = true) →
      ∀ i, caseCount i cs2.sh.recorded = caseCount i cfg.cases) :=
  ⟨seqExecute_exact, startRun_exactly_once⟩

/-- Three ordinary cases for a run that completes. -/
def c1w : Cfg := baseCfg [caseA 0 0, caseA 1 0, caseA 2 0]

/-- The final shared state of the sequential run of c1w. -/
def c1wSh : Shared :=
  match seqExecute c1w 9 9 with
  | SeqOut.completed s => s
  | _ => doneSh

/-- The final coordinator state of the concurrent run of c1w. -/
def c1wCs : CState :=
  match startRun c1w 30 with
  | RunOut.done cs => cs
  | _ => initState c1w

theorem claim_C1_witness :
    caseCount 0 c1wSh.recorded = caseCount 0 c1w.cases ∧
      caseCount 1 c1wCs.sh.recorded = caseCount 1 c1w.cases :=
  ⟨claim_C1.1 c1w 9 9 c1wSh rfl 0,
   claim_C1.2 c1w 30 c1wCs rfl (by decide) 1⟩

/-- One case, one worker slot, allocation fails, the failed startup reply
is processed during the wave. -/
def c4x : Cfg :=
  { baseCfg [caseA 4 0] with
    allocOk := fun _ => false,
    waveSched := fun _ => [0] }

/-- The final coordinator state of the zero-worker run of c4x. -/
def c4xFinal : CState :=
  match startRun c4x 9 with
  | RunOut.done cs => cs
  | _ => initState c4x

/-- A configuration whose allocator reports zero capacity. -/
def c4zero : Cfg := { baseCfg [] with maxServers := 0 }

/-- C4 counterexample: with one worker slot whose allocation fails, zero
workers start, yet _start returns silently (the run completes as
RunOut.done rather than aborting): nothing was recorded and the case
earmarked into todo during startup is dropped. -/
theorem claim_C4_counterexample :
    startRun c4x 9 = RunOut.done c4xFinal ∧
      c4xFinal.srvs.map Srv.registered = [false] ∧
      c4xFinal.sh.recorded = [] ∧
      c4xFinal.sh.todo.length = 1 := by
  decide

/-- C4 (amended): only the capacity check fails loudly — max_servers ≤ 0
makes _start raise before assigning anything; when capacity is positive
but zero workers actually start, the run does NOT abort: it completes
silently with the earmarked case left in todo and nothing recorded. -/
theorem claim_C4 :
    (∀ (cfg : Cfg) (fuel : Nat), cfg.maxServers ≤ 0 →
      startRun cfg fuel = RunOut.aborted) ∧
    (startRun c4x 9 = RunOut.done c4xFinal ∧
      c4xFinal.sh.recorded = [] ∧ c4xFinal.sh.todo.length = 1) := by
  constructor
  · intro cfg fuel h
    unfold startRun
    simp [h]
  · decide

theorem claim_C4_witness :
    startRun c4zero 5 = RunOut.aborted ∧
      startRun c4x 9 = RunOut.done c4xFinal :=
  ⟨claim_C4.1 c4zero 5 (by decide), claim_C4.2.1⟩

/-- One case with max_retries = 2 whose model execution fails on the
first two attempts and would succeed on the third. -/
def c2x : Cfg :=
  { baseCfg [caseA 0 2] with
    execRes := fun i r => if i == 0 && r < 2 then some "boom" else none }

/-- The final shared state of the sequential run of c2x. -/
def c2xSh : Shared :=
  match seqExecute c2x 10 10 with
  | SeqOut.completed s => s
  | _ => doneSh

/-- C2 counterexample: a case with max_retries = 2 whose model execution
fails on the first two attempts (and would succeed on the third) is
recorded exactly once as a FAILURE, with msg = "boom" and retries still
0: execution failures are caught by _model_execute, stored in
_exceptions, and recorded immediately in the _COMPLETE branch — the
except _ServerError retry path of _run_case never sees them. -/
theorem claim_C2_counterexample :
    c2x.execRes 0 0 = some "boom" ∧
      c2x.execRes 0 1 = some "boom" ∧
      c2x.execRes 0 2 = none ∧
      seqExecute c2x 10 10 = SeqOut.completed c2xSh ∧
      c2xSh.recorded = [{ caseA 0 2 with msg := some "boom" }] := by
  decide

/-- One case with max_retries = 2 whose INPUT SETTING fails on the first
two attempts and succeeds on the third. -/
def c2w : Cfg :=
  { baseCfg [caseA 0 2] with
    setRes := fun i r => if i == 0 && r < 2 then some "setboom" else none }

/-- The final shared state of the sequential run of c2w. -/
def c2wSh : Shared :=
  match seqExecute c2w 10 20 with
  | SeqOut.completed s => s
  | _ => doneSh

/-- C2 (amended): the retry policy applies only to failures while SETTING
CASE INPUTS (re-raised as _ServerError inside _run_case): such a failure
increments retries and appends the case to rerun while retries <
max_retries, and otherwise records it with the failure message.  A MODEL
EXECUTION failure is never retried: in the _COMPLETE branch the case is
recorded immediately with the stored exception text, rerun untouched.  A
case with max_retries = 2 whose input-setting fails twice then succeeds
is recorded once, as a success (retries = 2, no message). -/
theorem claim_C2 :
    (∀ (cfg : Cfg) (sh : Shared) (sv : Srv) (c : Case) (e : String),
      setOutcome cfg { sv with scase := some c } c = some e →
      (c.retries < c.max_retries →
        applyCase cfg sh sv c =
          some ({ sh with rerun := sh.rerun ++ [{ c with retries := c.retries + 1 }] },
            { sv with
              scase := some { c with retries := c.retries + 1 },
              state := WState.error }, true)) ∧
      (¬ c.retries < c.max_retries →
        applyCase cfg sh sv c =
          some ({ sh with recorded := sh.recorded ++ [{ c with msg := some e }] },
            { sv with
              scase := some { c with msg := some e },
              state := WState.error }, true))) ∧
    (∀ (cfg : Cfg) (sh : Shared) (sv : Srv) (c : Case) (e : String) (st : Bool),
      sv.state = WState.complete → sv.scase = some c → sv.exc = some e →
      sv.isLocal = true →
      serverReady cfg sh sv st =
        some ({ sh with recorded := sh.recorded ++ [{ c with msg := some e }] },
          { sv with scase := none, state := WState.ready }, true)) ∧
    (seqExecute c2w 10 20 = SeqOut.completed c2wSh ∧
      c2wSh.recorded = [{ caseA 0 2 with retries := 2 }]) := by
  refine ⟨?_, ?_, by decide, by decide⟩
  · intro cfg sh sv c e hset
    constructor
    · intro hlt
      simp only [applyCase, hset, if_pos hlt]
    · intro hge
      simp only [applyCase, hset, if_neg hge]
  · intro cfg sh sv c e st hst hsc hexc hloc
    unfold serverReady
    rw [hst, hsc]
    simp only
    rw [show ({ sv with scase := none } : Srv).exc = sv.exc from rfl, hexc]
    simp [loadModel, hloc]

/-- A remote registered worker whose top level was never loaded: setting
inputs on it raises, exercising the _ServerError retry path. -/
def c2sv : Srv :=
  { isLocal := false, registered := true, ackDelivered := true,
    in_use := true, tloaded := false, state := WState.ready, scase := none,
    exc := none, reqs := [], eggCache := none, nloads := 0 }

/-- The local server right after a failed model execution. -/
def c2svC : Srv :=
  { localSrv with
    state := WState.complete, scase := some (caseA 0 2),
    exc := some "boom" }

theorem claim_C2_witness :
    applyCase (baseCfg []) doneSh c2sv (caseA 0 2) =
        some ({ doneSh with
                rerun := doneSh.rerun ++ [{ caseA 0 2 with retries := 1 }] },
          { c2sv with
            scase := some { caseA 0 2 with retries := 1 },
            state := WState.error }, true) ∧
      serverReady (baseCfg []) doneSh c2svC false =
        some ({ doneSh with
                recorded := doneSh.recorded ++ [{ caseA 0 2 with msg := some "boom" }] },
          { c2svC with scase := none, state := WState.ready }, true) :=
  ⟨(claim_C2.1 (baseCfg []) doneSh c2sv (caseA 0 2)
      "KeyError: server top level" rfl).1 (by decide),
   claim_C2.2.1 (baseCfg []) doneSh c2svC (caseA 0 2) "boom" false
     rfl rfl rfl rfl⟩

/-- Two cases, one worker; every load_model call after the first returns
False (the reload between the two cases fails). -/
def c6x : Cfg :=
  { baseCfg [caseA 0 0, caseA 1 0] with loadOk := fun _ k => k == 0 }

/-- The final coordinator state of the run of c6x. -/
def c6f : CState :=
  match startRun c6x 30 with
  | RunOut.done cs => cs
  | _ => initState c6x

/-- A started worker that has recorded its first case, with the reload
request pending in its queue (its second load_model call will fail). -/
def c6sv : Srv :=
  { isLocal := false, registered := true, ackDelivered := true,
    in_use := true, tloaded := true, state := WState.ready, scase := none,
    exc := none, reqs := [Req.load], eggCache := some 7, nloads := 1 }

/-- C6 counterexample: the model reload between the two cases fails
(load_model returns False), yet the worker that processed it stays Ready
— not Error — with the False result discarded (_load_model only enqueued
the request and returned True; line 267 ignores the reply's result), and
the run completes with both cases recorded as successes.  The Error state
is never entered because of a reload failure. -/
theorem claim_C6_counterexample :
    c6x.loadOk 0 1 = false ∧
      (popReply c6x 0 c6sv).map (fun sv => (sv.state, sv.nloads)) =
        some (WState.ready, 2) ∧
      startRun c6x 30 = RunOut.done c6f ∧
      c6f.sh.recorded.map (fun c => (c.cid, c.msg)) = [(0, none), (1, none)] ∧
      c6f.srvs.map (fun sv => (sv.state, sv.nloads)) = [(WState.ready, 3)] := by
  decide

/-- C6 (amended): in the Completed state of a registered remote worker,
after the case is recorded a load request is enqueued whenever the case
failed (its msg is set), and after a success exactly when reload_model is
enabled; the worker then becomes Ready unconditionally — _load_model only
enqueues and returns True, so a reload failure cannot move the worker to
Error (the request's eventual result is discarded by the worker thread:
the load branch of popReply never changes the state field). -/
theorem claim_C6 (cfg : Cfg) (sh : Shared) (sv : Srv) (c : Case)
    (hst : sv.state = WState.complete) (hsc : sv.scase = some c)
    (hloc : sv.isLocal = false) (hreg : sv.registered = true) :
    (∀ e, sv.exc = some e →
      serverReady cfg sh sv false =
        some ({ sh with recorded := sh.recorded ++ [{ c with msg := some e }] },
          { sv with
            scase := none, reqs := sv.reqs ++ [Req.load],
            state := WState.ready }, true)) ∧
    (sv.exc = none →
      serverReady cfg sh sv false =
        some ({ sh with
                recorded := sh.recorded ++ [harvest cfg { sv with scase := none } c] },
          { sv with
            scase := none,
            reqs := if (harvest cfg { sv with scase := none } c).msg.isSome
                || cfg.reload_model then sv.reqs ++ [Req.load] else sv.reqs,
            state := WState.ready }, true)) ∧
    (∀ (w : Nat) (rest : List Req), sv.ackDelivered = true →
      sv.reqs = Req.load :: rest →
      (popReply cfg w sv).map Srv.state = some sv.state) := by
  refine ⟨?_, ?_, ?_⟩
  · intro e hexc
    unfold serverReady
    rw [hst, hsc]
    simp only
    rw [show ({ sv with scase := none } : Srv).exc = sv.exc from rfl, hexc]
    simp [loadModel, hloc, hreg]
  · intro hexc
    unfold serverReady
    rw [hst, hsc]
    simp only
    rw [show ({ sv with scase := none } : Srv).exc = sv.exc from rfl, hexc]
    simp only
    cases hdl : ((harvest cfg
        { sv with scase := none, state := WState.complete, exc := none }
        c).msg.isSome || cfg.reload_model) with
    | false => simp
    | true => simp [loadModel, hloc, hreg]
  · intro w rest hack hreqs
    simp only [popReply, hack, hreqs, Bool.not_true, Bool.false_eq_true,
      if_false, remoteLoadModel, remoteLoadTail]
    split_ifs <;> rfl

/-- A registered remote worker in the Completed state after a failed
execution. -/
def c6svE : Srv :=
  { isLocal := false, registered := true, ackDelivered := true,
    in_use := true, tloaded := true, state := WState.complete,
    scase := some (caseA 2 1), exc := some "boom", reqs := [],
    eggCache := some 7, nloads := 1 }

/-- The same worker with a pending load request and no stored exception. -/
def c6svL : Srv :=
  { c6svE with exc := none, reqs := [Req.load] }

theorem claim_C6_witness :
    serverReady (baseCfg []) doneSh c6svE false =
        some ({ doneSh with
                recorded := doneSh.recorded ++ [{ caseA 2 1 with msg := some "boom" }] },
          { c6svE with
            scase := none, reqs := c6svE.reqs ++ [Req.load],
            state := WState.ready }, true) ∧
      (popReply (baseCfg []) 0 c6svL).map Srv.state = some c6svL.state :=
  ⟨(claim_C6 (baseCfg []) doneSh c6svE (caseA 2 1) rfl rfl rfl rfl).1 "boom" rfl,
   (claim_C6 (baseCfg []) doneSh c6svL (caseA 2 1) rfl rfl rfl rfl).2.2 0 [] rfl rfl⟩

end CaseIter
